import Mathlib

/-!
Verification of the discovery-and-registration engine of the `mcp_server`
package (`prompts/__init__.py`, `resources/__init__.py`, `tools/__init__.py`).

The Python code is embedded shallowly:

* filesystem paths are lists of components;
* Python dicts become insertion-ordered association lists whose key
  comparison is boolean equality (matching `__eq__`-based dict lookup);
* the mutable manager objects become explicit state records threaded through
  the functions, and every `try/except` becomes an `Except`/`Option` branch;
* the external collaborators that the spec fixes by contract (the FastMCP
  registration surface, `mcp.types`, the JSON/YAML serializer pair and
  `str.format`) are modelled from the spec: the JSON serializer is a concrete
  executable pretty-printer/reader pair defined below, the YAML serializer is
  kept abstract as a `YamlLib` parameter.
-/

namespace Mcp

/-- ASCII lowercasing of one character (model of `str.lower` on the ASCII
range, which is all the engine compares: file-name suffixes). -/
def lowerChar (c : Char) : Char :=
  if 65 ≤ c.toNat ∧ c.toNat ≤ 90 then Char.ofNat (c.toNat + 32) else c

/-- ASCII lowercasing of a string. -/
def lowerStr (s : String) : String :=
  String.mk (s.data.map lowerChar)

/-- Update of an insertion-ordered association list, modelling assignment
into a Python dict: an existing key keeps its position and gets the new
value, a new key is appended at the end. -/
def alInsert [BEq κ] (m : List (κ × α)) (k : κ) (v : α) : List (κ × α) :=
  match m with
  | [] => [(k, v)]
  | (k', v') :: rest => if k' == k then (k, v) :: rest else (k', v') :: alInsert rest k v

/-- Lookup in an association list, modelling Python dict access. -/
def alLookup [BEq κ] (m : List (κ × α)) (k : κ) : Option α :=
  match m with
  | [] => none
  | (k', v') :: rest => if k' == k then some v' else alLookup rest k

/-- Substring test on character lists, modelling Python's `in` on strings. -/
def infixOf (pat s : List Char) : Bool :=
  (List.range (s.length + 1)).any (fun i => pat.isPrefixOf (s.drop i))

/-- A filesystem path, as its list of components. -/
abbrev FPath := List String

/-- Final component of a path (Python `Path.name`). -/
def pathName (p : FPath) : String := p.getLast?.getD ""

/-- Parent of a path (Python `Path.parent`). -/
def pathParent (p : FPath) : FPath := p.dropLast

/-- Rendering of a path as a string (Python `str(path)` with `/` separators). -/
def pathStr (p : FPath) : String := String.intercalate "/" p

/-- Python `Path.relative_to`: strips the prefix `q` from `p`, failing (the
Python call raises `ValueError`) when `q` is not a prefix of `p`. -/
def relative_to (p q : FPath) : Option FPath :=
  if q.isPrefixOf p then some (p.drop q.length) else none

/-- Index of the last occurrence of a character, if any. -/
def lastIdxOf (c : Char) (cs : List Char) : Option Nat :=
  (cs.reverse.findIdx? (· == c)).map (fun i => cs.length - 1 - i)

/-- Python `Path.suffix`: the final dot-extension of the path's name, empty
when the name has no dot, or only a leading or trailing one. -/
def pathSuffix (p : FPath) : String :=
  let cs := (pathName p).data
  match lastIdxOf '.' cs with
  | some i => if 0 < i ∧ i + 1 < cs.length then String.mk (cs.drop i) else ""
  | none => ""

/-- Python `Path.stem`: the path's name with its suffix removed. -/
def pathStem (p : FPath) : String :=
  let cs := (pathName p).data
  match lastIdxOf '.' cs with
  | some i => if 0 < i ∧ i + 1 < cs.length then String.mk (cs.take i) else pathName p
  | none => pathName p

/-- Exclusion filter shared by the three managers: a path is excluded when
any configured pattern occurs as a substring of its string form. -/
def should_exclude (patterns : List String) (p : FPath) : Bool :=
  patterns.any (fun pat => infixOf pat.data (pathStr p).data)

/-- A value produced by parsing a structured (YAML) document: Python's
`None`, booleans, integers, strings, lists and string-keyed dicts. -/
inductive Value where
  | vNull
  | vBool (b : Bool)
  | vInt (n : Int)
  | vStr (s : String)
  | vList (xs : List Value)
  | vDict (kvs : List (String × Value))

/-- Boolean equality of values, modelling Python `==` on parsed documents. -/
def Value.beq : Value → Value → Bool
  | .vNull, .vNull => true
  | .vBool a, .vBool b => a == b
  | .vInt a, .vInt b => a == b
  | .vStr a, .vStr b => a == b
  | .vList xs, .vList ys => go xs ys
  | .vDict xs, .vDict ys => goD xs ys
  | _, _ => false
where
  go : List Value → List Value → Bool
    | [], [] => true
    | x :: xs, y :: ys => Value.beq x y && go xs ys
    | _, _ => false
  goD : List (String × Value) → List (String × Value) → Bool
    | [], [] => true
    | (k, x) :: xs, (k2, y) :: ys => k == k2 && Value.beq x y && goD xs ys
    | _, _ => false

instance : BEq Value := ⟨Value.beq⟩

/-- Python truthiness of an optional field holding a parsed value: `None`,
`False`, `0`, and empty strings/containers are falsy. -/
def truthy : Option Value → Bool
  | none => false
  | some .vNull => false
  | some (.vBool b) => b
  | some (.vInt n) => n != 0
  | some (.vStr s) => !s.data.isEmpty
  | some (.vList xs) => !xs.isEmpty
  | some (.vDict kvs) => !kvs.isEmpty

/-- Python iteration over a value: lists yield their items, strings their
one-character substrings, dicts their keys; other scalars raise `TypeError`. -/
def iterValue : Value → Except String (List Value)
  | .vList xs => .ok xs
  | .vStr s => .ok (s.data.map (fun c => .vStr (String.mk [c])))
  | .vDict kvs => .ok (kvs.map (fun kv => .vStr kv.1))
  | _ => .error "TypeError: object is not iterable"

/-- The open-brace character, written by code to stay out of string literals. -/
def lbrace : Char := Char.ofNat 123

/-- The close-brace character. -/
def rbrace : Char := Char.ofNat 125

/-- Argument values supplied at prompt invocation (`Dict[str, str]`). -/
abbrev ArgMap := List (String × String)

/-- Worker for `pformat`. The second argument is `none` outside a
placeholder and `some acc` while scanning a placeholder name (reversed). -/
def pformatGo (args : ArgMap) : List Char → Option (List Char) → Except String (List Char)
  | [], none => .ok []
  | [], some _ => .error "unterminated placeholder in format string"
  | c :: rest, some acc =>
    if c = rbrace then
      match alLookup args (String.mk acc.reverse) with
      | some v => (pformatGo args rest none).map (fun r => v.data ++ r)
      | none => .error ("KeyError: " ++ String.mk acc.reverse)
    else pformatGo args rest (some (c :: acc))
  | [c], none =>
    if c = lbrace then .error "unterminated placeholder in format string"
    else if c = rbrace then .error "single close brace in format string"
    else (pformatGo args [] none).map (fun r => [c] ++ r)
  | c :: d :: rest2, none =>
    if c = lbrace then
      if d = lbrace then (pformatGo args rest2 none).map (fun r => lbrace :: r)
      else pformatGo args (d :: rest2) (some [])
    else if c = rbrace then
      if d = rbrace then (pformatGo args rest2 none).map (fun r => rbrace :: r)
      else .error "single close brace in format string"
    else (pformatGo args (d :: rest2) none).map (fun r => c :: r)

/-- Named-placeholder substitution on a text, the subset of Python
`str.format(**args)` the spec's rendering step relies on: each
brace-delimited name is replaced by the matching supplied argument, a
doubled brace is an escape, and a name absent from the arguments fails
(`KeyError`). -/
def pformat (args : ArgMap) (s : String) : Except String String :=
  (pformatGo args s.data none).map String.mk

/-- Applying `.format` to a field value: only strings have the method;
anything else raises (`AttributeError`), which the caller catches. -/
def formatValue (args : ArgMap) : Value → Except String String
  | .vStr s => pformat args s
  | _ => .error "AttributeError: object has no attribute format"

/-- The `PromptTemplate` dataclass. `name` and `description` have no
default, the remaining fields default to `None`; an absent field and a field
explicitly set to `null` are both `none`-like and are represented by the
lookup result of the backing document. -/
structure PromptTemplate where
  name : Value
  description : Value
  arguments : Option Value
  system_prompt : Option Value
  messages : Option Value

/-- Field names accepted by the `PromptTemplate` constructor. -/
def templateFields : List String :=
  ["name", "description", "arguments", "system_prompt", "messages"]

/-- Constructing `PromptTemplate(**content)`: the parsed document must be a
dict, every key must be a declared field (otherwise `TypeError: unexpected
keyword argument`), and the two fields without defaults, `name` and
`description`, must be present (otherwise `TypeError: missing required
argument`). `arguments`, `system_prompt` and `messages` default to `None`. -/
def mkPromptTemplate : Value → Option PromptTemplate
  | .vDict kvs =>
    if kvs.all (fun kv => templateFields.contains kv.1)
        && (alLookup kvs "name").isSome && (alLookup kvs "description").isSome then
      some { name := (alLookup kvs "name").getD .vNull
             description := (alLookup kvs "description").getD .vNull
             arguments := alLookup kvs "arguments"
             system_prompt := alLookup kvs "system_prompt"
             messages := alLookup kvs "messages" }
    else none
  | _ => none

/-- A `types.PromptArgument` built by `register_prompt` from one entry of the
template's `arguments` list. -/
structure PromptArgument where
  name : Value
  description : Option Value
  required : Value

/-- Building the declared argument schema in `register_prompt`: a falsy
`arguments` field yields the empty schema; otherwise each entry must be a
dict carrying `name` (a missing `name` raises `KeyError`, and a non-dict
entry raises — this happens outside any `try`, so the error propagates). -/
def buildPromptArgs (arguments : Option Value) : Except String (List PromptArgument) :=
  if truthy arguments then do
    let items ← iterValue (arguments.getD .vNull)
    items.mapM (fun item =>
      match item with
      | .vDict kvs =>
        match alLookup kvs "name" with
        | some n =>
          .ok { name := n, description := alLookup kvs "description"
                required := (alLookup kvs "required").getD (.vBool false) }
        | none => .error "KeyError: name"
      | _ => .error "TypeError: argument entry is not a dict")
  else .ok []

/-- A rendered `types.PromptMessage` with its text content. -/
structure PromptMessage where
  role : Value
  text : String

/-- The `types.GetPromptResult` envelope handed back to the protocol layer. -/
structure GetPromptResult where
  description : Value
  promptArgs : List PromptArgument
  messages : List PromptMessage

/-- Rendering one entry of the `messages` list inside `get_prompt`: the
entry must be a dict with `role` and `content` keys and a string content
whose placeholders all resolve; every failure raises and is caught by the
surrounding handler. -/
def renderOneMsg (args : ArgMap) : Value → Except String PromptMessage
  | .vDict kvs =>
    match alLookup kvs "role" with
    | none => .error "KeyError: role"
    | some r =>
      match alLookup kvs "content" with
      | none => .error "KeyError: content"
      | some c => (formatValue args c).map (fun txt => { role := r, text := txt })
  | _ => .error "TypeError: message is not a dict"

/-- The body of `get_prompt`'s `try` block: render the optional system
prompt, then every entry of `messages` in declaration order. -/
def renderAll (t : PromptTemplate) (args : ArgMap) : Except String (List PromptMessage) := do
  let sysMsgs ←
    if truthy t.system_prompt then do
      let txt ← formatValue args (t.system_prompt.getD .vNull)
      pure [{ role := Value.vStr "system", text := txt }]
    else pure []
  match t.messages with
  | none => .error "TypeError: NoneType object is not iterable"
  | some msgsVal => do
    let items ← iterValue msgsVal
    let rendered ← items.mapM (renderOneMsg args)
    pure (sysMsgs ++ rendered)

/-- The `get_prompt` handler registered for one template: on success the
envelope carries the rendered messages; any rendering failure is caught and
converted into a single synthetic system-role message carrying the error
text. The handler itself never raises. -/
def get_prompt (t : PromptTemplate) (promptArgs : List PromptArgument)
    (arguments : Option ArgMap) : GetPromptResult :=
  let args := arguments.getD []
  match renderAll t args with
  | .ok msgs => { description := t.description, promptArgs := promptArgs, messages := msgs }
  | .error e =>
    { description := t.description, promptArgs := promptArgs
      messages := [{ role := Value.vStr "system", text := "Error: " ++ e }] }

/-- A JSON value as handled by the structured-document serializer the engine
uses for `.json` resources (modelled from the spec's serializer contract;
numbers are integers, matching the documents the engine round-trips). -/
inductive Json where
  | jnull
  | jbool (b : Bool)
  | jnum (n : Int)
  | jstr (s : List Char)
  | jarr (xs : List Json)
  | jobj (kvs : List (List Char × Json))

/-- Lowercase hexadecimal digit for a value below 16. -/
def hexDigitChar (n : Nat) : Char :=
  if n < 10 then Char.ofNat (48 + n) else Char.ofNat (87 + n)

/-- Escaping of one character inside a serialized JSON string: quote,
backslash and control characters are escaped, everything else is literal. -/
def escChar (c : Char) : List Char :=
  if c = '"' then ['\\', '"']
  else if c = '\\' then ['\\', '\\']
  else if c = '\n' then ['\\', 'n']
  else if c = '\t' then ['\\', 't']
  else if c = '\r' then ['\\', 'r']
  else if c = Char.ofNat 8 then ['\\', 'b']
  else if c = Char.ofNat 12 then ['\\', 'f']
  else if c.toNat < 32 then
    ['\\', 'u', '0', '0', hexDigitChar (c.toNat / 16), hexDigitChar (c.toNat % 16)]
  else [c]

/-- Escaped body of a serialized JSON string. -/
def escBody : List Char → List Char
  | [] => []
  | c :: rest => escChar c ++ escBody rest

/-- A serialized JSON string with its surrounding quotes. -/
def printStr (s : List Char) : List Char :=
  '"' :: (escBody s ++ ['"'])

/-- Decimal digits of a natural number, most significant first, accumulated
onto `acc`. -/
def natDigitsAux (n : Nat) (acc : List Char) : List Char :=
  if n < 10 then Char.ofNat (48 + n) :: acc
  else natDigitsAux (n / 10) (Char.ofNat (48 + n % 10) :: acc)
termination_by n
decreasing_by exact Nat.div_lt_self (by omega) (by omega)

/-- Decimal digits of a natural number. -/
def natDigits (n : Nat) : List Char := natDigitsAux n []

/-- Serialized JSON integer. -/
def printInt (n : Int) : List Char :=
  if n < 0 then '-' :: natDigits n.natAbs else natDigits n.toNat

/-- Run of `n` indentation spaces. -/
def spaces (n : Nat) : List Char := List.replicate n ' '

mutual
/-- Pretty-printed serialization of a JSON value at indent level `ind`,
following the serializer's stable two-space-indent format: empty containers
print as a bracket pair, non-empty ones put each element on its own line
indented two further spaces, with the closing bracket back at `ind`. -/
def printJson (ind : Nat) : Json → List Char
  | .jnull => "null".data
  | .jbool b => if b then "true".data else "false".data
  | .jnum n => printInt n
  | .jstr s => printStr s
  | .jarr [] => "[]".data
  | .jarr (x :: xs) =>
    '[' :: '\n' :: (spaces (ind + 2) ++ printJson (ind + 2) x ++ printItems (ind + 2) xs
      ++ '\n' :: (spaces ind ++ [']']))
  | .jobj [] => [lbrace, rbrace]
  | .jobj ((k, v) :: kvs) =>
    lbrace :: '\n' :: (spaces (ind + 2) ++ printStr k ++ ':' :: ' ' :: (printJson (ind + 2) v
      ++ printMembers (ind + 2) kvs ++ '\n' :: (spaces ind ++ [rbrace])))

/-- Remaining elements of a non-empty serialized array, each preceded by a
comma, a newline and indentation. -/
def printItems (ind : Nat) : List Json → List Char
  | [] => []
  | x :: xs => ',' :: '\n' :: (spaces ind ++ printJson ind x ++ printItems ind xs)

/-- Remaining members of a non-empty serialized object. -/
def printMembers (ind : Nat) : List (List Char × Json) → List Char
  | [] => []
  | (k, v) :: kvs =>
    ',' :: '\n' :: (spaces ind ++ printStr k ++ ':' :: ' ' :: (printJson ind v ++ printMembers ind kvs))
end

/-- Whitespace recognizer of the JSON reader. -/
def isWsChar (c : Char) : Bool := c == ' ' || c == '\n' || c == '\t' || c == '\r'

/-- Skipping leading whitespace. -/
def skipWs (cs : List Char) : List Char := cs.dropWhile isWsChar

/-- ASCII decimal digit test. -/
def isDigitChar (c : Char) : Bool := 48 ≤ c.toNat && c.toNat ≤ 57

/-- Numeric value of a decimal digit. -/
def digitVal (c : Char) : Nat := c.toNat - 48

/-- Reading a run of decimal digits into an accumulator, returning the value
and the unread remainder. -/
def readNat : List Char → Nat → Nat × List Char
  | [], acc => (acc, [])
  | c :: rest, acc =>
    if isDigitChar c then readNat rest (acc * 10 + digitVal c) else (acc, c :: rest)

/-- Numeric value of a hexadecimal digit, if it is one. -/
def hexVal (c : Char) : Option Nat :=
  if 48 ≤ c.toNat && c.toNat ≤ 57 then some (c.toNat - 48)
  else if 97 ≤ c.toNat && c.toNat ≤ 102 then some (c.toNat - 87)
  else if 65 ≤ c.toNat && c.toNat ≤ 70 then some (c.toNat - 55)
  else none

mutual
/-- Reading the body of a JSON string after its opening quote: returns the
decoded content and the remainder after the closing quote. -/
def readStringBody : List Char → Option (List Char × List Char)
  | [] => none
  | c :: rest =>
    if c = '"' then some ([], rest)
    else if c = '\\' then readEscape rest
    else (readStringBody rest).map (fun p => (c :: p.1, p.2))

/-- Reading one escape sequence after a backslash. -/
def readEscape : List Char → Option (List Char × List Char)
  | [] => none
  | e :: rest =>
    if e = '"' then (readStringBody rest).map (fun p => ('"' :: p.1, p.2))
    else if e = '\\' then (readStringBody rest).map (fun p => ('\\' :: p.1, p.2))
    else if e = '/' then (readStringBody rest).map (fun p => ('/' :: p.1, p.2))
    else if e = 'n' then (readStringBody rest).map (fun p => ('\n' :: p.1, p.2))
    else if e = 't' then (readStringBody rest).map (fun p => ('\t' :: p.1, p.2))
    else if e = 'r' then (readStringBody rest).map (fun p => ('\r' :: p.1, p.2))
    else if e = 'b' then (readStringBody rest).map (fun p => (Char.ofNat 8 :: p.1, p.2))
    else if e = 'f' then (readStringBody rest).map (fun p => (Char.ofNat 12 :: p.1, p.2))
    else if e = 'u' then readHexEsc rest
    else none

/-- Reading the four hex digits of a unicode escape. -/
def readHexEsc : List Char → Option (List Char × List Char)
  | h1 :: h2 :: h3 :: h4 :: rest =>
    match hexVal h1, hexVal h2, hexVal h3, hexVal h4 with
    | some a, some b, some c, some d =>
      (readStringBody rest).map (fun p => (Char.ofNat (a * 4096 + b * 256 + c * 16 + d) :: p.1, p.2))
    | _, _, _, _ => none
  | _ => none
end

/-- Consuming an exact literal from the input, if present. -/
def expectChars (lit cs : List Char) : Option (List Char) :=
  if lit.isPrefixOf cs then some (cs.drop lit.length) else none

mutual
/-- Reading one JSON value, fuel-bounded; returns the value and the unread
remainder of the input. -/
def parseVal : Nat → List Char → Option (Json × List Char)
  | 0, _ => none
  | fuel + 1, cs =>
    match skipWs cs with
    | [] => none
    | c :: rest =>
      if c = 'n' then (expectChars "ull".data rest).map (fun r => (Json.jnull, r))
      else if c = 't' then (expectChars "rue".data rest).map (fun r => (Json.jbool true, r))
      else if c = 'f' then (expectChars "alse".data rest).map (fun r => (Json.jbool false, r))
      else if c = '"' then (readStringBody rest).map (fun p => (Json.jstr p.1, p.2))
      else if c = '[' then
        match skipWs rest with
        | [] => none
        | x :: r3 =>
          if x = ']' then some (Json.jarr [], r3)
          else
            match parseVal fuel (x :: r3) with
            | some (v, r4) => (parseItems fuel r4).map (fun p => (Json.jarr (v :: p.1), p.2))
            | none => none
      else if c = lbrace then
        match skipWs rest with
        | [] => none
        | x :: r3 =>
          if x = rbrace then some (Json.jobj [], r3)
          else
            match parseMember fuel (x :: r3) with
            | some (kv, r4) => (parseMembers fuel r4).map (fun p => (Json.jobj (kv :: p.1), p.2))
            | none => none
      else if c = '-' then
        match rest with
        | d :: _ =>
          if isDigitChar d then
            let p := readNat rest 0
            some (Json.jnum (-(p.1 : Int)), p.2)
          else none
        | [] => none
      else if isDigitChar c then
        let p := readNat (c :: rest) 0
        some (Json.jnum (p.1 : Int), p.2)
      else none
termination_by fuel _ => 4 * fuel
decreasing_by all_goals omega

/-- Reading the elements after the first one of a non-empty array, up to and
including the closing bracket. -/
def parseItems : Nat → List Char → Option (List Json × List Char)
  | 0, _ => none
  | fuel + 1, cs =>
    match skipWs cs with
    | [] => none
    | c :: rest =>
      if c = ',' then
        match parseVal fuel rest with
        | some (v, r2) => (parseItems fuel r2).map (fun p => (v :: p.1, p.2))
        | none => none
      else if c = ']' then some ([], rest)
      else none
termination_by fuel _ => 4 * fuel + 1
decreasing_by all_goals omega

/-- Reading the members after the first one of a non-empty object, up to and
including the closing brace. -/
def parseMembers : Nat → List Char → Option (List (List Char × Json) × List Char)
  | 0, _ => none
  | fuel + 1, cs =>
    match skipWs cs with
    | [] => none
    | c :: rest =>
      if c = ',' then
        match parseMember fuel rest with
        | some (kv, r2) => (parseMembers fuel r2).map (fun p => (kv :: p.1, p.2))
        | none => none
      else if c = rbrace then some ([], rest)
      else none
termination_by fuel _ => 4 * fuel + 1
decreasing_by all_goals omega

/-- Reading one `"key": value` member of an object. -/
def parseMember : Nat → List Char → Option ((List Char × Json) × List Char)
  | fuel, cs =>
    match skipWs cs with
    | [] => none
    | c :: rest =>
      if c = '"' then
        match readStringBody rest with
        | some (k, r2) =>
          match skipWs r2 with
          | ':' :: r3 => (parseVal fuel r3).map (fun p => ((k, p.1), p.2))
          | _ => none
        | none => none
      else none
termination_by fuel _ => 4 * fuel + 2
decreasing_by all_goals omega
end

/-- Test that an input does not continue a decimal number: empty, or a
non-digit first character. -/
def headNotDigit : List Char → Bool
  | [] => true
  | c :: _ => !isDigitChar c

mutual
/-- Fuel bound sufficient for the reader on a printed value: essentially the
value's constructor depth. -/
def psize : Json → Nat
  | .jnull => 1
  | .jbool _ => 1
  | .jnum _ => 1
  | .jstr _ => 1
  | .jarr xs => 1 + psizeL xs
  | .jobj kvs => 1 + psizeO kvs

/-- Fuel bound for the element loop of an array. -/
def psizeL : List Json → Nat
  | [] => 1
  | x :: xs => 1 + max (psize x) (psizeL xs)

/-- Fuel bound for the member loop of an object. -/
def psizeO : List (List Char × Json) → Nat
  | [] => 1
  | kv :: kvs => 1 + max (psize kv.2) (psizeO kvs)
end

/-- Statement that at fuel `fuel` the reader consumes exactly the printed
form of any small-enough value and leaves the remainder intact. -/
def ParsesVal (fuel : Nat) : Prop :=
  ∀ (ind : Nat) (v : Json) (rest : List Char), psize v ≤ fuel → headNotDigit rest = true →
    parseVal fuel (printJson ind v ++ rest) = some (v, rest)

/-- Statement that at fuel `fuel` the element loop consumes the printed tail
of an array together with its closing bracket. -/
def ParsesItems (fuel : Nat) : Prop :=
  ∀ (ind k : Nat) (xs : List Json) (rest : List Char), psizeL xs ≤ fuel →
    parseItems fuel (printItems ind xs ++ '\n' :: (spaces k ++ ']' :: rest)) = some (xs, rest)

/-- Statement that at fuel `fuel` the member loop consumes the printed tail
of an object together with its closing brace. -/
def ParsesMembers (fuel : Nat) : Prop :=
  ∀ (ind k : Nat) (kvs : List (List Char × Json)) (rest : List Char), psizeO kvs ≤ fuel →
    parseMembers fuel (printMembers ind kvs ++ '\n' :: (spaces k ++ rbrace :: rest))
      = some (kvs, rest)

/-- Statement that at fuel `fuel` the member reader consumes one printed
`"key": value` pair. -/
def ParsesMember (fuel : Nat) : Prop :=
  ∀ (ind : Nat) (kv : List Char × Json) (rest : List Char), psize kv.2 ≤ fuel →
    headNotDigit rest = true →
    parseMember fuel (printStr kv.1 ++ ':' :: ' ' :: (printJson ind kv.2 ++ rest))
      = some (kv, rest)

/-- The JSON reader (`json.loads`): reads one value and requires the rest of
the input to be whitespace. -/
def json_loads (s : String) : Option Json :=
  match parseVal (s.data.length + 1) s.data with
  | some (v, rest) => if (skipWs rest).isEmpty then some v else none
  | none => none

/-- The JSON pretty-printer (`json.dumps(·, indent=2)`). -/
def json_dumps (v : Json) : String := String.mk (printJson 0 v)

/-- The YAML serializer pair (`yaml.safe_load` / `yaml.dump`), kept abstract:
the engine only dispatches to it, so every result below holds for an
arbitrary serializer. A failing `load` models a raised `YAMLError`. -/
structure YamlLib where
  load : String → Option Value
  dump : Value → String

/-- A top-level member of a loaded Python module, as seen by the
`inspect.getmembers` scan: its bound name, whether it is a function, and the
module name it declares as its origin (`__module__`). -/
structure Member where
  name : String
  isFunction : Bool
  declaredModule : String

/-- A loaded executable unit (Python module). -/
structure Module where
  name : String
  members : List Member

/-- One entry produced by recursively walking a directory. -/
structure Entry where
  path : FPath
  isFile : Bool

/-- The ambient filesystem and loader world: existing directories with the
entries `rglob` yields under them, text file reads, modification times, and
module loading (`none` models a load failure). -/
structure World where
  dirs : List (FPath × List Entry)
  readFile : FPath → Except String String
  mtime : FPath → Except String Nat
  modules : FPath → Option Module

/-- The `ResourceConfig` dataclass with its `__post_init__` defaults. The
`uri_prefix` option is called `scheme` here. -/
structure ResourceConfig where
  scheme : String := "file://"
  default_mime_type : String := "text/plain"
  mime_types : List (String × String) :=
    [(".json", "application/json"), (".yaml", "application/yaml"),
     (".yml", "application/yaml"), (".md", "text/markdown"),
     (".txt", "text/plain"), (".py", "text/x-python"),
     (".css", "text/css"), (".html", "text/html"),
     (".js", "application/javascript")]
  exclude_patterns : List String := ["__pycache__", ".git", ".mypy_cache"]

/-- MIME resolution by lowercased file suffix with the configured default as
fallback. -/
def get_mime_type (cfg : ResourceConfig) (p : FPath) : String :=
  (alLookup cfg.mime_types (lowerStr (pathSuffix p))).getD cfg.default_mime_type

/-- Canonicalization of structured resource content: `.json` files are
re-serialized through the JSON pretty-printer, `.yaml`/`.yml` files through
the YAML serializer; a parse failure or any other extension returns the
content unchanged (the parse error is only logged). -/
def parse_structured_content (yl : YamlLib) (file_path : FPath) (content : String) : String :=
  if lowerStr (pathSuffix file_path) = ".json" then
    match json_loads content with
    | some parsed => json_dumps parsed
    | none => content
  else if lowerStr (pathSuffix file_path) = ".yaml" ∨ lowerStr (pathSuffix file_path) = ".yml" then
    match yl.load content with
    | some parsed => yl.dump parsed
    | none => content
  else content

/-- A `types.Resource` record as the provider returns it. -/
structure Resource where
  uri : String
  name : String
  description : Option String := none
  mimeType : Option String := none
  text : String

/-- Replacement of one character by another throughout a string. -/
def replaceChar (a b : Char) (s : String) : String :=
  String.mk (s.data.map (fun c => if c = a then b else c))

/-- ASCII uppercasing of one character. -/
def upperChar (c : Char) : Char :=
  if 97 ≤ c.toNat ∧ c.toNat ≤ 122 then Char.ofNat (c.toNat - 32) else c

/-- ASCII letter test. -/
def isAlphaChar (c : Char) : Bool :=
  (65 ≤ c.toNat && c.toNat ≤ 90) || (97 ≤ c.toNat && c.toNat ≤ 122)

/-- Worker for `titleStr`, tracking whether the previous character was a
letter. -/
def titleGo : List Char → Bool → List Char
  | [], _ => []
  | c :: rest, prevAlpha =>
    if isAlphaChar c then
      (if prevAlpha then lowerChar c else upperChar c) :: titleGo rest true
    else c :: titleGo rest false

/-- Python `str.title` on the ASCII range: the first letter of every
letter-run is uppercased, the rest lowercased. -/
def titleStr (s : String) : String := String.mk (titleGo s.data false)

/-- The resource URI computed at registration:
`uri_prefix + source_parent + "/" + file_path.relative_to(file_path.parent)`. -/
def resourceUri (cfg : ResourceConfig) (file_path : FPath) (source_parent : String) : String :=
  cfg.scheme ++ source_parent ++ "/" ++ pathStr ((relative_to file_path (pathParent file_path)).getD [])

/-- A registered provider: the closure `get_resource` captures the file
path, the source-parent name and the computed URI. -/
structure Provider where
  file_path : FPath
  source_parent : String
  uri : String

/-- The FastMCP resource registry the spec's registration surface exposes:
a mapping from URI to provider, re-registration overwriting. -/
abbrev McpResources := List (String × Provider)

/-- The `ResourceManager`'s mutable bookkeeping: the record cache and the
last-modified side index. -/
structure RMState where
  resources : List (String × Resource) := []
  last_modified : List (String × Nat) := []

/-- Registration of one resource file: excluded paths are skipped, otherwise
a provider bound to the computed URI is installed (overwrite semantics). -/
def register_resource (cfg : ResourceConfig) (mcp : McpResources)
    (file_path : FPath) (source_parent : String) : McpResources :=
  if should_exclude cfg.exclude_patterns file_path then mcp
  else
    let uri := resourceUri cfg file_path source_parent
    alInsert mcp uri { file_path := file_path, source_parent := source_parent, uri := uri }

/-- The substitute record the provider returns when reading fails. -/
def errorResource (uri : String) (file_path : FPath) (e : String) : Resource :=
  { uri := uri, name := "Error: " ++ pathName file_path
    text := "Failed to load resource: " ++ e }

/-- One invocation of a registered provider (the closure `get_resource`):
read the file, canonicalize structured content, build the record, cache it
and record the modification time; any failure yields the substitute error
record, and a failure before a step leaves that step's state untouched. -/
def get_resource (cfg : ResourceConfig) (yl : YamlLib) (w : World) (st : RMState)
    (pr : Provider) : RMState × Resource :=
  match w.readFile pr.file_path with
  | .error e => (st, errorResource pr.uri pr.file_path e)
  | .ok raw =>
    let content := parse_structured_content yl pr.file_path raw
    let resource : Resource :=
      { uri := pr.uri
        name := pr.source_parent ++ ": " ++ titleStr (replaceChar '_' ' ' (pathStem pr.file_path))
        description := some ("Content from " ++ pr.source_parent ++ "/" ++ pathName pr.file_path)
        mimeType := some (get_mime_type cfg pr.file_path)
        text := content }
    let st1 : RMState := { st with resources := alInsert st.resources pr.uri resource }
    match w.mtime pr.file_path with
    | .error e => (st1, errorResource pr.uri pr.file_path e)
    | .ok t => ({ st1 with last_modified := alInsert st1.last_modified pr.uri t }, resource)

/-- The `ToolConfig` dataclass with its defaults. -/
structure ToolConfig where
  default_dir : FPath := ["mcp_server", "tools", "implementations"]
  exclude_patterns : List String := ["__pycache__", ".git", "__init__.py"]

/-- Leading-underscore test for the private-name convention. -/
def startsWithUnderscore (s : String) : Bool :=
  match s.data with
  | c :: _ => c == '_'
  | [] => false

/-- Suffix test on strings. -/
def endsWithStr (suf s : String) : Bool := suf.data.isSuffixOf s.data

/-- The tool registries: the FastMCP endpoint registry and the manager's own
`_tools` mirror. -/
structure ToolState where
  mcpTools : List (String × Member) := []
  tools : List (String × Member) := []

/-- Loop body of the member scan in `register_tools`: a member is wrapped
and registered when it is a function, its name has no leading underscore,
and its declared origin module is the module being scanned (`modName`);
anything else is passed over. -/
def toolStep (modName : String) (acc : ToolState) (mem : Member) : ToolState :=
  if mem.isFunction && !startsWithUnderscore mem.name && mem.declaredModule == modName then
    { mcpTools := alInsert acc.mcpTools mem.name mem
      tools := alInsert acc.tools mem.name mem }
  else acc

/-- Scanning one loaded module's members for endpoints. -/
def register_tools (st : ToolState) (m : Module) : ToolState :=
  m.members.foldl (toolStep m.name) st

/-- The outcome of one initialization stage: the final registry state, the
diagnostic lines printed, and the uncaught exception aborting the stage, if
any. -/
abbrev Step (σ : Type) := σ × List String × Option String

/-- The shared directory walk of the three `init_*` functions: a root that
does not exist emits one warning and is skipped, an existing root is handed
to the per-kind processor; an uncaught processor exception aborts the walk. -/
def walkDirs (w : World) (warnText : String) (process : σ → FPath → List Entry → Step σ) :
    σ → List FPath → Step σ
  | st, [] => (st, [], none)
  | st, d :: ds =>
    match alLookup w.dirs d with
    | none =>
      let r := walkDirs w warnText process st ds
      (r.1, (warnText ++ pathStr d) :: r.2.1, r.2.2)
    | some entries =>
      match process st d entries with
      | (st1, log1, some e) => (st1, log1, some e)
      | (st1, log1, none) =>
        let r := walkDirs w warnText process st1 ds
        (r.1, log1 ++ r.2.1, r.2.2)

/-- Processing of one existing source root in `init_resources`: every file
entry is registered with `source_parent` set to the name of the directory
containing the root. -/
def processResourceDir (cfg : ResourceConfig) (mcp : McpResources) (d : FPath)
    (entries : List Entry) : Step McpResources :=
  let source_parent := pathName (pathParent d)
  (entries.foldl (fun acc e => if e.isFile then register_resource cfg acc e.path source_parent else acc)
    mcp, [], none)

/-- The default source directory computed inside `init_resources`. -/
def defaultSourceDir : FPath := ["mcp_server", "resources", "sources"]

/-- Resource initialization: append the default root unless excluded, then
walk all roots. -/
def init_resources (cfg : ResourceConfig) (w : World) (source_dirs : Option (List FPath))
    (exclude_default : Bool) (mcp : McpResources) : Step McpResources :=
  let dirs := (source_dirs.getD []) ++ (if exclude_default then [] else [defaultSourceDir])
  walkDirs w "Warning: Source directory does not exist: " (processResourceDir cfg) mcp dirs

/-- Processing of one existing tool root in `init_tools`: each `.py` file
entry not excluded is loaded; a load failure is logged and skipped, a loaded
module has its members scanned for endpoints. -/
def processToolDir (cfg : ToolConfig) (w : World) (st : ToolState) (d : FPath)
    (entries : List Entry) : Step ToolState :=
  let p := entries.foldl (fun (acc : ToolState × List String) e =>
    if e.isFile && endsWithStr ".py" (pathName e.path)
        && !should_exclude cfg.exclude_patterns e.path then
      match w.modules e.path with
      | none => (acc.1, acc.2 ++ ["Error loading module " ++ pathStr e.path])
      | some m => (register_tools acc.1 m, acc.2)
    else acc) (st, [])
  (p.1, p.2, none)

/-- Tool initialization. -/
def init_tools (cfg : ToolConfig) (w : World) (tool_dirs : Option (List FPath))
    (exclude_default : Bool) (st : ToolState) : Step ToolState :=
  let dirs := (tool_dirs.getD []) ++ (if exclude_default then [] else [cfg.default_dir])
  walkDirs w "Warning: Tool directory does not exist: " (processToolDir cfg w) st dirs

/-- The `PromptConfig` dataclass with its defaults. -/
structure PromptConfig where
  default_dir : FPath := ["mcp_server", "prompts", "templates"]
  exclude_patterns : List String := ["__pycache__", ".git"]

/-- The `PromptManager`'s template registry keyed by the template `name`. -/
abbrev TemplateMap := List (Value × PromptTemplate)

/-- Loading one template file: read, parse, construct, then store under
`name`. Any failure is caught, logged with the file path, and the file is
skipped with the registry untouched. -/
def load_template (yl : YamlLib) (w : World) (templates : TemplateMap) (file_path : FPath) :
    TemplateMap × Option PromptTemplate × List String :=
  match w.readFile file_path with
  | .error e =>
    (templates, none, ["Error loading prompt template " ++ pathStr file_path ++ ": " ++ e])
  | .ok text =>
    match yl.load text with
    | none =>
      (templates, none, ["Error loading prompt template " ++ pathStr file_path ++ ": parse error"])
    | some content =>
      match mkPromptTemplate content with
      | none =>
        (templates, none, ["Error loading prompt template " ++ pathStr file_path ++ ": TypeError"])
      | some t => (alInsert templates t.name t, some t, [])

/-- The FastMCP prompt registry: name to template with its argument schema. -/
abbrev McpPrompts := List (Value × (PromptTemplate × List PromptArgument))

/-- Registration of one loaded template: the argument schema is built (this
can raise, outside any `try`), then the invocation handler is bound under
the template name. -/
def register_prompt (mcp : McpPrompts) (t : PromptTemplate) : Except String McpPrompts :=
  (buildPromptArgs t.arguments).map (fun args => alInsert mcp t.name (t, args))

/-- The prompt pipeline's registries. -/
structure PromptState where
  templates : TemplateMap := []
  mcp : McpPrompts := []

/-- Processing the `.yaml` file entries of one existing template root. -/
def processPromptEntries (yl : YamlLib) (w : World) (cfg : PromptConfig) :
    PromptState → List Entry → Step PromptState
  | st, [] => (st, [], none)
  | st, e :: rest =>
    if !e.isFile || !endsWithStr ".yaml" (pathName e.path)
        || should_exclude cfg.exclude_patterns e.path then
      processPromptEntries yl w cfg st rest
    else
      let l := load_template yl w st.templates e.path
      let st1 : PromptState := { st with templates := l.1 }
      match l.2.1 with
      | none =>
        let r := processPromptEntries yl w cfg st1 rest
        (r.1, l.2.2 ++ r.2.1, r.2.2)
      | some t =>
        match register_prompt st1.mcp t with
        | .error ex => (st1, l.2.2, some ex)
        | .ok mcp1 =>
          let r := processPromptEntries yl w cfg { st1 with mcp := mcp1 } rest
          (r.1, l.2.2 ++ r.2.1, r.2.2)

/-- Prompt initialization. -/
def init_prompts (yl : YamlLib) (w : World) (cfg : PromptConfig)
    (template_dirs : Option (List FPath)) (exclude_default : Bool) (st : PromptState) :
    Step PromptState :=
  let dirs := (template_dirs.getD []) ++ (if exclude_default then [] else [cfg.default_dir])
  walkDirs w "Warning: Template directory does not exist: "
    (fun st _ entries => processPromptEntries yl w cfg st entries) st dirs

theorem alLookup_alInsert_self [BEq κ] [LawfulBEq κ] (m : List (κ × α)) (k : κ) (v : α) :
    alLookup (alInsert m k v) k = some v := by
  induction m with
  | nil => simp [alInsert, alLookup]
  | cons kv rest ih =>
    obtain ⟨k', v'⟩ := kv
    by_cases h : k' = k
    · simp [alInsert, alLookup, h]
    · simp only [alInsert, alLookup, beq_iff_eq, h, if_false]
      exact ih

theorem alLookup_alInsert_ne [BEq κ] [LawfulBEq κ] (m : List (κ × α)) (k j : κ) (v : α)
    (h : j ≠ k) : alLookup (alInsert m k v) j = alLookup m j := by
  have h' : k ≠ j := Ne.symm h
  induction m with
  | nil => simp [alInsert, alLookup, beq_iff_eq, h']
  | cons kv rest ih =>
    obtain ⟨k', v'⟩ := kv
    by_cases hk : k' = k
    · subst hk
      simp [alInsert, alLookup, beq_iff_eq, h']
    · simp only [alInsert, alLookup, beq_iff_eq, hk, if_false]
      by_cases hj : k' = j <;> simp [hj, ih]

theorem pathStr_single (s : String) : pathStr [s] = s := by
  simp [pathStr, String.intercalate, String.intercalate.go]

theorem relative_to_parent (p : FPath) (hp : p ≠ []) :
    relative_to p (pathParent p) = some [pathName p] := by
  obtain ⟨q, a, rfl⟩ : ∃ q a, p = q ++ [a] :=
    ⟨p.dropLast, p.getLast hp, (p.dropLast_append_getLast hp).symm⟩
  have hpre : q.isPrefixOf (q ++ [a]) = true := by
    rw [List.isPrefixOf_iff_prefix]; exact ⟨[a], rfl⟩
  simp [relative_to, pathParent, pathName, List.dropLast_concat, hpre, List.drop_left,
    List.getLast?_concat]

theorem pathName_resourceUri (cfg : ResourceConfig) (sp : String) (p : FPath) (hp : p ≠ []) :
    resourceUri cfg p sp = cfg.scheme ++ sp ++ "/" ++ pathName p := by
  rw [resourceUri, relative_to_parent p hp]
  simp [pathStr_single]

/-- C3: the computed resource URI is exactly the configured scheme prefix
(defaulting to `"file://"`), the name of the directory containing the
configured source root (`init_resources` hands `source_dir.parent.name` to
`register_resource`), a slash, and the file's own name — no intermediate
subdirectory components — so two same-named files under the same root
compute equal URIs and collide. -/
theorem resource_uri_scheme_parent_filename (cfg : ResourceConfig) (sp : String)
    (d : FPath) (mcp : McpResources) (p q : FPath)
    (hp : p ≠ []) (hq : q ≠ []) (hn : pathName q = pathName p)
    (hex : should_exclude cfg.exclude_patterns p = false) :
    resourceUri cfg p sp = cfg.scheme ++ sp ++ "/" ++ pathName p
    ∧ resourceUri cfg q sp = resourceUri cfg p sp
    ∧ ({} : ResourceConfig).scheme = "file://"
    ∧ processResourceDir cfg mcp d [⟨p, true⟩]
        = (register_resource cfg mcp p (pathName (pathParent d)), [], none)
    ∧ register_resource cfg mcp p sp
        = alInsert mcp (cfg.scheme ++ sp ++ "/" ++ pathName p)
            ⟨p, sp, cfg.scheme ++ sp ++ "/" ++ pathName p⟩ := by
  have h1 := pathName_resourceUri cfg sp p hp
  refine ⟨h1, ?_, rfl, ?_, ?_⟩
  · rw [pathName_resourceUri cfg sp q hq, h1, hn]
  · simp [processResourceDir]
  · rw [register_resource, hex]
    simp only [Bool.false_eq_true, if_false, h1]

theorem resource_uri_scheme_parent_filename_witness :
    resourceUri {} ["sub1", "x.txt"] "resources"
        = ({} : ResourceConfig).scheme ++ "resources" ++ "/" ++ pathName ["sub1", "x.txt"]
    ∧ resourceUri {} ["sub2", "x.txt"] "resources" = resourceUri {} ["sub1", "x.txt"] "resources"
    ∧ ({} : ResourceConfig).scheme = "file://"
    ∧ processResourceDir {} [] ["data", "resources"] [⟨["sub1", "x.txt"], true⟩]
        = (register_resource {} [] ["sub1", "x.txt"]
            (pathName (pathParent ["data", "resources"])), [], none)
    ∧ register_resource {} [] ["sub1", "x.txt"] "resources"
        = alInsert [] (({} : ResourceConfig).scheme ++ "resources" ++ "/" ++ pathName ["sub1", "x.txt"])
            ⟨["sub1", "x.txt"], "resources",
              ({} : ResourceConfig).scheme ++ "resources" ++ "/" ++ pathName ["sub1", "x.txt"]⟩ :=
  resource_uri_scheme_parent_filename {} "resources" ["data", "resources"] []
    ["sub1", "x.txt"] ["sub2", "x.txt"] (by decide) (by decide) (by decide) (by decide)

/-- C6: when the underlying file read fails, the provider returns the
substitute record whose name signals the error and whose body carries the
error text; being a total function of its inputs, it does not raise. -/
theorem provider_read_failure_substitute (cfg : ResourceConfig) (yl : YamlLib) (w : World)
    (st : RMState) (pr : Provider) (e : String)
    (h : w.readFile pr.file_path = .error e) :
    get_resource cfg yl w st pr
      = (st, { uri := pr.uri, name := "Error: " ++ pathName pr.file_path,
               description := none, mimeType := none,
               text := "Failed to load resource: " ++ e }) := by
  simp [get_resource, h, errorResource]

theorem provider_read_failure_substitute_witness :
    get_resource {} ⟨fun _ => none, fun _ => ""⟩
        ⟨[], fun _ => .error "boom", fun _ => .ok 0, fun _ => none⟩ {} ⟨["a.txt"], "s", "u"⟩
      = ({}, { uri := "u", name := "Error: " ++ pathName ["a.txt"],
               description := none, mimeType := none,
               text := "Failed to load resource: " ++ "boom" }) :=
  provider_read_failure_substitute {} ⟨fun _ => none, fun _ => ""⟩
    ⟨[], fun _ => .error "boom", fun _ => .ok 0, fun _ => none⟩ {} ⟨["a.txt"], "s", "u"⟩
    "boom" rfl

/-- C9: a provider invocation whose file read fails leaves the cached record
map and the last-modified index untouched for every URI, and conversely the
bookkeeping can only change when the read succeeded. -/
theorem provider_failure_atomic (cfg : ResourceConfig) (yl : YamlLib) (w : World)
    (st : RMState) (pr : Provider) :
    (∀ e, w.readFile pr.file_path = .error e →
      (get_resource cfg yl w st pr).1.resources = st.resources
      ∧ (get_resource cfg yl w st pr).1.last_modified = st.last_modified)
    ∧ ((get_resource cfg yl w st pr).1 ≠ st →
        ∃ c, w.readFile pr.file_path = .ok c) := by
  constructor
  · intro e h
    simp [get_resource, h]
  · intro hne
    cases hr : w.readFile pr.file_path with
    | ok c => exact ⟨c, rfl⟩
    | error e =>
      exact absurd (by simp [get_resource, hr]) hne

theorem provider_failure_atomic_witness :
    (get_resource {} ⟨fun _ => none, fun _ => ""⟩
        ⟨[], fun _ => .error "io", fun _ => .ok 0, fun _ => none⟩
        ⟨[("u", ⟨"u", "n", none, none, "t"⟩)], []⟩ ⟨["a.txt"], "s", "u"⟩).1.resources
      = [("u", ⟨"u", "n", none, none, "t"⟩)] :=
  (provider_failure_atomic {} ⟨fun _ => none, fun _ => ""⟩
      ⟨[], fun _ => .error "io", fun _ => .ok 0, fun _ => none⟩
      ⟨[("u", ⟨"u", "n", none, none, "t"⟩)], []⟩ ⟨["a.txt"], "s", "u"⟩).1 "io" rfl |>.1

theorem parse_structured_content_failure (yl : YamlLib) (fp : FPath) (raw : String)
    (hfail :
      (lowerStr (pathSuffix fp) = ".json" ∧ json_loads raw = none)
      ∨ ((lowerStr (pathSuffix fp) = ".yaml" ∨ lowerStr (pathSuffix fp) = ".yml")
          ∧ yl.load raw = none)) :
    parse_structured_content yl fp raw = raw := by
  rcases hfail with ⟨hs, hj⟩ | ⟨hs, hy⟩
  · simp [parse_structured_content, hs, hj]
  · have hne : lowerStr (pathSuffix fp) ≠ ".json" := by
      rcases hs with h | h <;> simp [h]
    rcases hs with h | h <;> simp [parse_structured_content, hne, h, hy]

/-- C10: a resource with a JSON or YAML extension whose content reads
successfully but fails to parse is served as a normal record carrying the
raw file text unchanged — not as the substitute error record — and the
caches are updated as on any successful read. -/
theorem structured_parse_failure_serves_raw (cfg : ResourceConfig) (yl : YamlLib) (w : World)
    (st : RMState) (pr : Provider) (raw : String) (t : Nat)
    (hread : w.readFile pr.file_path = .ok raw)
    (hmtime : w.mtime pr.file_path = .ok t)
    (hfail :
      (lowerStr (pathSuffix pr.file_path) = ".json" ∧ json_loads raw = none)
      ∨ ((lowerStr (pathSuffix pr.file_path) = ".yaml" ∨ lowerStr (pathSuffix pr.file_path) = ".yml")
          ∧ yl.load raw = none)) :
    get_resource cfg yl w st pr
      = (⟨alInsert st.resources pr.uri
            { uri := pr.uri
              name := pr.source_parent ++ ": " ++ titleStr (replaceChar '_' ' ' (pathStem pr.file_path))
              description := some ("Content from " ++ pr.source_parent ++ "/" ++ pathName pr.file_path)
              mimeType := some (get_mime_type cfg pr.file_path)
              text := raw },
          alInsert st.last_modified pr.uri t⟩,
         { uri := pr.uri
           name := pr.source_parent ++ ": " ++ titleStr (replaceChar '_' ' ' (pathStem pr.file_path))
           description := some ("Content from " ++ pr.source_parent ++ "/" ++ pathName pr.file_path)
           mimeType := some (get_mime_type cfg pr.file_path)
           text := raw }) := by
  have hp := parse_structured_content_failure yl pr.file_path raw hfail
  simp [get_resource, hread, hmtime, hp]

theorem structured_parse_failure_serves_raw_witness :
    get_resource {} ⟨fun _ => none, fun _ => ""⟩
        ⟨[], fun _ => .ok "key: : bad", fun _ => .ok 7, fun _ => none⟩ {} ⟨["b.yaml"], "s", "u"⟩
      = (⟨alInsert ({} : RMState).resources "u"
            { uri := "u"
              name := "s" ++ ": " ++ titleStr (replaceChar '_' ' ' (pathStem ["b.yaml"]))
              description := some ("Content from " ++ "s" ++ "/" ++ pathName ["b.yaml"])
              mimeType := some (get_mime_type {} ["b.yaml"])
              text := "key: : bad" },
          alInsert ({} : RMState).last_modified "u" 7⟩,
         { uri := "u"
           name := "s" ++ ": " ++ titleStr (replaceChar '_' ' ' (pathStem ["b.yaml"]))
           description := some ("Content from " ++ "s" ++ "/" ++ pathName ["b.yaml"])
           mimeType := some (get_mime_type {} ["b.yaml"])
           text := "key: : bad" }) :=
  structured_parse_failure_serves_raw {} ⟨fun _ => none, fun _ => ""⟩
    ⟨[], fun _ => .ok "key: : bad", fun _ => .ok 7, fun _ => none⟩ {} ⟨["b.yaml"], "s", "u"⟩
    "key: : bad" 7 rfl rfl (Or.inr ⟨Or.inl (by decide), rfl⟩)

theorem alInsert_alInsert_self [BEq κ] [LawfulBEq κ] (m : List (κ × α)) (k : κ) (a b : α) :
    alInsert (alInsert m k a) k b = alInsert m k b := by
  induction m with
  | nil => simp [alInsert]
  | cons kv rest ih =>
    obtain ⟨k', v'⟩ := kv
    by_cases h : k' = k
    · simp [alInsert, h]
    · simp [alInsert, h, ih]

/-- C2: two files that compute the same URI in one load pass register
last-write-wins — the second registration replaces the prior provider with
no merge and no error — and reading that URI afterwards serves the content
of the most recently processed file. -/
theorem resource_register_last_write_wins (cfg : ResourceConfig) (yl : YamlLib) (w : World)
    (st : RMState) (mcp : McpResources) (pA pB : FPath) (sp : String) (cB : String) (t : Nat)
    (hA : should_exclude cfg.exclude_patterns pA = false)
    (hB : should_exclude cfg.exclude_patterns pB = false)
    (hpA : pA ≠ []) (hpB : pB ≠ []) (hname : pathName pA = pathName pB)
    (hread : w.readFile pB = .ok cB) (hmtime : w.mtime pB = .ok t) :
    register_resource cfg (register_resource cfg mcp pA sp) pB sp
      = alInsert mcp (resourceUri cfg pB sp) ⟨pB, sp, resourceUri cfg pB sp⟩
    ∧ alLookup (register_resource cfg (register_resource cfg mcp pA sp) pB sp)
        (resourceUri cfg pB sp) = some ⟨pB, sp, resourceUri cfg pB sp⟩
    ∧ (get_resource cfg yl w st ⟨pB, sp, resourceUri cfg pB sp⟩).2.text
        = parse_structured_content yl pB cB := by
  have huri : resourceUri cfg pA sp = resourceUri cfg pB sp := by
    rw [pathName_resourceUri cfg sp pA hpA, pathName_resourceUri cfg sp pB hpB, hname]
  have h1 : register_resource cfg (register_resource cfg mcp pA sp) pB sp
      = alInsert mcp (resourceUri cfg pB sp) ⟨pB, sp, resourceUri cfg pB sp⟩ := by
    simp only [register_resource, hA, hB, Bool.false_eq_true, if_false, huri]
    exact alInsert_alInsert_self _ _ _ _
  refine ⟨h1, ?_, ?_⟩
  · rw [h1]
    exact alLookup_alInsert_self _ _ _
  · simp [get_resource, hread, hmtime]

theorem resource_register_last_write_wins_witness :
    register_resource {} (register_resource {} [] ["sub1", "x.txt"] "resources")
        ["sub2", "x.txt"] "resources"
      = alInsert [] (resourceUri {} ["sub2", "x.txt"] "resources")
          ⟨["sub2", "x.txt"], "resources", resourceUri {} ["sub2", "x.txt"] "resources"⟩
    ∧ alLookup (register_resource {} (register_resource {} [] ["sub1", "x.txt"] "resources")
          ["sub2", "x.txt"] "resources") (resourceUri {} ["sub2", "x.txt"] "resources")
        = some ⟨["sub2", "x.txt"], "resources", resourceUri {} ["sub2", "x.txt"] "resources"⟩
    ∧ (get_resource {} ⟨fun _ => none, fun _ => ""⟩
          ⟨[], fun _ => .ok "second", fun _ => .ok 3, fun _ => none⟩ {}
          ⟨["sub2", "x.txt"], "resources", resourceUri {} ["sub2", "x.txt"] "resources"⟩).2.text
        = parse_structured_content ⟨fun _ => none, fun _ => ""⟩ ["sub2", "x.txt"] "second" :=
  resource_register_last_write_wins {} ⟨fun _ => none, fun _ => ""⟩
    ⟨[], fun _ => .ok "second", fun _ => .ok 3, fun _ => none⟩ {} []
    ["sub1", "x.txt"] ["sub2", "x.txt"] "resources" "second" 3
    (by decide) (by decide) (by decide) (by decide) (by decide) rfl rfl

theorem toolFold_lookup_of_not_named (mn : String) (members : List Member) (acc : ToolState)
    (n : String) (h : ∀ mem ∈ members, mem.name ≠ n) :
    alLookup (members.foldl (toolStep mn) acc).mcpTools n = alLookup acc.mcpTools n
    ∧ alLookup (members.foldl (toolStep mn) acc).tools n = alLookup acc.tools n := by
  induction members generalizing acc with
  | nil => exact ⟨rfl, rfl⟩
  | cons m0 rest ih =>
    have hm0 : m0.name ≠ n := h m0 (by simp)
    have hrest : ∀ mem ∈ rest, mem.name ≠ n := fun mem hm => h mem (by simp [hm])
    rw [List.foldl_cons]
    obtain ⟨ih1, ih2⟩ := ih (toolStep mn acc m0) hrest
    rw [ih1, ih2]
    unfold toolStep
    by_cases hc : (m0.isFunction && !startsWithUnderscore m0.name && m0.declaredModule == mn) = true
    · simp only [hc, if_true]
      exact ⟨alLookup_alInsert_ne _ _ _ _ (Ne.symm hm0),
             alLookup_alInsert_ne _ _ _ _ (Ne.symm hm0)⟩
    · simp only [hc, if_false]
      exact ⟨rfl, rfl⟩

theorem toolFold_lookup_of_mem (mn : String) (members : List Member) (acc : ToolState)
    (mem : Member) (hmem : mem ∈ members) (hnodup : (members.map Member.name).Nodup) :
    alLookup (members.foldl (toolStep mn) acc).mcpTools mem.name
      = (if mem.isFunction && !startsWithUnderscore mem.name && mem.declaredModule == mn
         then some mem else alLookup acc.mcpTools mem.name)
    ∧ alLookup (members.foldl (toolStep mn) acc).tools mem.name
      = (if mem.isFunction && !startsWithUnderscore mem.name && mem.declaredModule == mn
         then some mem else alLookup acc.tools mem.name) := by
  induction members generalizing acc with
  | nil => simp at hmem
  | cons m0 rest ih =>
    rw [List.foldl_cons]
    rcases List.mem_cons.mp hmem with rfl | hmemr
    · have hrest : ∀ m2 ∈ rest, m2.name ≠ mem.name := by
        intro m2 hm2 heq
        have := (List.nodup_cons.mp hnodup).1
        exact this (heq ▸ List.mem_map_of_mem Member.name hm2)
      obtain ⟨h1, h2⟩ := toolFold_lookup_of_not_named mn rest (toolStep mn acc mem) mem.name hrest
      rw [h1, h2]
      unfold toolStep
      by_cases hc : (mem.isFunction && !startsWithUnderscore mem.name && mem.declaredModule == mn) = true
      · simp only [hc, if_true]
        exact ⟨alLookup_alInsert_self _ _ _, alLookup_alInsert_self _ _ _⟩
      · simp only [hc, if_false]
        exact ⟨rfl, rfl⟩
    · have hm0 : m0.name ≠ mem.name := by
        intro heq
        have := (List.nodup_cons.mp hnodup).1
        exact this (heq ▸ List.mem_map_of_mem Member.name hmemr)
      obtain ⟨ih1, ih2⟩ := ih (toolStep mn acc m0) hmemr (List.nodup_cons.mp hnodup).2
      rw [ih1, ih2]
      have hstep : alLookup (toolStep mn acc m0).mcpTools mem.name = alLookup acc.mcpTools mem.name
          ∧ alLookup (toolStep mn acc m0).tools mem.name = alLookup acc.tools mem.name := by
        unfold toolStep
        by_cases hc : (m0.isFunction && !startsWithUnderscore m0.name && m0.declaredModule == mn) = true
        · simp only [hc, if_true]
          exact ⟨alLookup_alInsert_ne _ _ _ _ (Ne.symm hm0),
                 alLookup_alInsert_ne _ _ _ _ (Ne.symm hm0)⟩
        · simp only [hc, if_false]
          exact ⟨rfl, rfl⟩
      rw [hstep.1, hstep.2]
      exact ⟨rfl, rfl⟩

/-- C5: scanning a loaded module registers a top-level member as an endpoint
exactly when it is a function whose declared origin module matches the
module being scanned and whose name has no leading underscore; in
particular, a function imported from another module is never registered. -/
theorem tool_registered_iff_eligible (m : Module) (mem : Member)
    (hmem : mem ∈ m.members) (hnodup : (m.members.map Member.name).Nodup) :
    (alLookup (register_tools {} m).mcpTools mem.name
      = if mem.isFunction && !startsWithUnderscore mem.name && mem.declaredModule == m.name
        then some mem else none)
    ∧ (alLookup (register_tools {} m).tools mem.name
      = if mem.isFunction && !startsWithUnderscore mem.name && mem.declaredModule == m.name
        then some mem else none)
    ∧ (alLookup (register_tools {} m).mcpTools mem.name = some mem
        ↔ mem.isFunction = true ∧ startsWithUnderscore mem.name = false
            ∧ mem.declaredModule = m.name) := by
  obtain ⟨h1, h2⟩ := toolFold_lookup_of_mem m.name m.members {} mem hmem hnodup
  have he : alLookup ({} : ToolState).mcpTools mem.name = none := rfl
  have he2 : alLookup ({} : ToolState).tools mem.name = none := rfl
  rw [he] at h1
  rw [he2] at h2
  refine ⟨h1, h2, ?_⟩
  rw [show register_tools {} m = m.members.foldl (toolStep m.name) ({} : ToolState) from rfl]
  rw [h1]
  by_cases hc : (mem.isFunction && !startsWithUnderscore mem.name && mem.declaredModule == m.name) = true
  · simp only [hc, if_true]
    simp only [Bool.and_eq_true, Bool.not_eq_true', beq_iff_eq] at hc
    simp [hc.1.1, hc.1.2, hc.2]
  · simp only [hc, if_false]
    simp only [Bool.and_eq_true, Bool.not_eq_true', beq_iff_eq] at hc
    constructor
    · intro h; cases h
    · intro ⟨ha, hb, hd⟩
      exact absurd ⟨⟨ha, hb⟩, hd⟩ hc

theorem tool_registered_iff_eligible_witness :
    alLookup (register_tools {} ⟨"mcp_server.tools.calc",
        [⟨"helper", true, "other.module"⟩, ⟨"add", true, "mcp_server.tools.calc"⟩]⟩).mcpTools
        "helper"
      = (if (true : Bool) && !startsWithUnderscore "helper"
            && ("other.module" == "mcp_server.tools.calc")
         then some ⟨"helper", true, "other.module"⟩ else none) :=
  (tool_registered_iff_eligible ⟨"mcp_server.tools.calc",
      [⟨"helper", true, "other.module"⟩, ⟨"add", true, "mcp_server.tools.calc"⟩]⟩
    ⟨"helper", true, "other.module"⟩ (by simp) (by simp)).1

theorem infixOf_append (pat l r : List Char) : infixOf pat (l ++ (pat ++ r)) = true := by
  have hpre : pat.isPrefixOf (pat ++ r) = true := by
    rw [List.isPrefixOf_iff_prefix]
    exact ⟨r, rfl⟩
  simp only [infixOf, List.any_eq_true, List.mem_range]
  refine ⟨l.length, ?_, ?_⟩
  · simp [List.length_append]
    omega
  · rw [List.drop_left]
    exact hpre

theorem mkPromptTemplate_missing_required (kvs : List (String × Value))
    (h : alLookup kvs "name" = none ∨ alLookup kvs "description" = none) :
    mkPromptTemplate (.vDict kvs) = none := by
  rcases h with h | h <;> simp [mkPromptTemplate, h]

/-- C1 counterexample: a template document that lacks the claimed required
key `messages` (but has `name` and `description`) is not skipped — the
constructor succeeds because `messages` has a `None` default — and the
template is registered in the template map. -/
theorem template_missing_messages_still_registers :
    (load_template
        ⟨fun _ => some (.vDict [("name", .vStr "t"), ("description", .vStr "d")]), fun _ => ""⟩
        ⟨[], fun _ => .ok "", fun _ => .ok 0, fun _ => none⟩
        [] ["tpl.yaml"]).1
      = [(Value.vStr "t",
          { name := Value.vStr "t", description := Value.vStr "d",
            arguments := none, system_prompt := none, messages := none })]
    ∧ (load_template
        ⟨fun _ => some (.vDict [("name", .vStr "t"), ("description", .vStr "d")]), fun _ => ""⟩
        ⟨[], fun _ => .ok "", fun _ => .ok 0, fun _ => none⟩
        [] ["tpl.yaml"]).2.2 = [] :=
  ⟨rfl, rfl⟩

/-- C1 (amended): a template file that cannot be read, whose document is
malformed, or whose document is rejected by the `PromptTemplate` constructor
— in particular when one of the two keys without defaults, `name` or
`description`, is missing; `messages` has a `None` default and its absence
alone does not fail — is caught and logged with the file path, the file is
skipped, no entry is added to the template registry, and the walk continues
over the remaining files unchanged. -/
theorem template_load_failure_dropped (yl : YamlLib) (w : World) (tm : TemplateMap)
    (fp : FPath) (cfg : PromptConfig) (st : PromptState) (rest : List Entry)
    (h : (∃ e, w.readFile fp = .error e)
      ∨ (∃ raw, w.readFile fp = .ok raw ∧ yl.load raw = none)
      ∨ (∃ raw v, w.readFile fp = .ok raw ∧ yl.load raw = some v ∧ mkPromptTemplate v = none)
      ∨ (∃ raw kvs, w.readFile fp = .ok raw ∧ yl.load raw = some (.vDict kvs)
          ∧ (alLookup kvs "name" = none ∨ alLookup kvs "description" = none)))
    (hst : st.templates = tm)
    (hyaml : endsWithStr ".yaml" (pathName fp) = true)
    (hexcl : should_exclude cfg.exclude_patterns fp = false) :
    (load_template yl w tm fp).1 = tm
    ∧ (load_template yl w tm fp).2.1 = none
    ∧ (load_template yl w tm fp).2.2.length = 1
    ∧ (load_template yl w tm fp).2.2.all (fun msg => infixOf (pathStr fp).data msg.data) = true
    ∧ processPromptEntries yl w cfg st ({ path := fp, isFile := true } :: rest)
        = ((processPromptEntries yl w cfg st rest).1,
           (load_template yl w tm fp).2.2 ++ (processPromptEntries yl w cfg st rest).2.1,
           (processPromptEntries yl w cfg st rest).2.2) := by
  have hload : (load_template yl w tm fp).1 = tm ∧ (load_template yl w tm fp).2.1 = none
      ∧ ∃ msg, (load_template yl w tm fp).2.2 = [msg]
          ∧ infixOf (pathStr fp).data msg.data = true := by
    rcases h with ⟨e, he⟩ | ⟨raw, hr, hl⟩ | ⟨raw, v, hr, hl, hm⟩ | ⟨raw, kvs, hr, hl, hk⟩
    · rw [load_template, he]
      refine ⟨rfl, rfl, _, rfl, ?_⟩
      simp only [String.data_append, List.append_assoc]
      exact infixOf_append _ _ _
    · rw [load_template, hr]
      refine ⟨by simp [hl], by simp [hl],
        "Error loading prompt template " ++ pathStr fp ++ ": parse error",
        by simp [hl], ?_⟩
      simp only [String.data_append, List.append_assoc]
      exact infixOf_append _ _ _
    · rw [load_template, hr]
      refine ⟨by simp [hl, hm], by simp [hl, hm],
        "Error loading prompt template " ++ pathStr fp ++ ": TypeError",
        by simp [hl, hm], ?_⟩
      simp only [String.data_append, List.append_assoc]
      exact infixOf_append _ _ _
    · rw [load_template, hr]
      have hm := mkPromptTemplate_missing_required kvs hk
      refine ⟨by simp [hl, hm], by simp [hl, hm],
        "Error loading prompt template " ++ pathStr fp ++ ": TypeError",
        by simp [hl, hm], ?_⟩
      simp only [String.data_append, List.append_assoc]
      exact infixOf_append _ _ _
  obtain ⟨h1, h2, msg, h3, hinf⟩ := hload
  refine ⟨h1, h2, by rw [h3]; rfl, ?_, ?_⟩
  · rw [h3]
    simp only [List.all_cons, List.all_nil, Bool.and_true]
    exact hinf
  · simp only [processPromptEntries, hyaml, hexcl, Bool.not_true, Bool.or_false,
      Bool.false_or, Bool.not_false, if_false, Bool.false_eq_true]
    simp only [hst, h1, h2]
    rw [← hst]

theorem template_load_failure_dropped_witness :
    (load_template ⟨fun _ => some .vNull, fun _ => ""⟩
        ⟨[], fun _ => .ok "x", fun _ => .ok 0, fun _ => none⟩ [] ["a", "t.yaml"]).1 = []
    ∧ (load_template ⟨fun _ => some .vNull, fun _ => ""⟩
        ⟨[], fun _ => .ok "x", fun _ => .ok 0, fun _ => none⟩ [] ["a", "t.yaml"]).2.1 = none
    ∧ (load_template ⟨fun _ => some .vNull, fun _ => ""⟩
        ⟨[], fun _ => .ok "x", fun _ => .ok 0, fun _ => none⟩ [] ["a", "t.yaml"]).2.2.length = 1
    ∧ (load_template ⟨fun _ => some .vNull, fun _ => ""⟩
        ⟨[], fun _ => .ok "x", fun _ => .ok 0, fun _ => none⟩ [] ["a", "t.yaml"]).2.2.all
        (fun msg => infixOf (pathStr ["a", "t.yaml"]).data msg.data) = true
    ∧ processPromptEntries ⟨fun _ => some .vNull, fun _ => ""⟩
        ⟨[], fun _ => .ok "x", fun _ => .ok 0, fun _ => none⟩ {}
        ⟨[], []⟩ ({ path := ["a", "t.yaml"], isFile := true } :: [])
        = ((processPromptEntries ⟨fun _ => some .vNull, fun _ => ""⟩
              ⟨[], fun _ => .ok "x", fun _ => .ok 0, fun _ => none⟩ {} ⟨[], []⟩ []).1,
           (load_template ⟨fun _ => some .vNull, fun _ => ""⟩
              ⟨[], fun _ => .ok "x", fun _ => .ok 0, fun _ => none⟩ [] ["a", "t.yaml"]).2.2
             ++ (processPromptEntries ⟨fun _ => some .vNull, fun _ => ""⟩
                  ⟨[], fun _ => .ok "x", fun _ => .ok 0, fun _ => none⟩ {} ⟨[], []⟩ []).2.1,
           (processPromptEntries ⟨fun _ => some .vNull, fun _ => ""⟩
              ⟨[], fun _ => .ok "x", fun _ => .ok 0, fun _ => none⟩ {} ⟨[], []⟩ []).2.2) :=
  template_load_failure_dropped ⟨fun _ => some .vNull, fun _ => ""⟩
    ⟨[], fun _ => .ok "x", fun _ => .ok 0, fun _ => none⟩ [] ["a", "t.yaml"] {} ⟨[], []⟩ []
    (Or.inr (Or.inr (Or.inl ⟨"x", .vNull, rfl, rfl, rfl⟩))) rfl (by decide) (by decide)

/-- C4: an invocation whose per-message substitution succeeds yields exactly
the template's messages in declaration order with all placeholders
substituted (a present system prompt would prepend one extra message, so the
exact-messages reading applies to templates without one), and an invocation
whose rendering fails anywhere yields a single synthetic system-role message
carrying the error text; `get_prompt` is a total function either way and
never raises past this boundary. -/
theorem get_prompt_renders_or_reports (t : PromptTemplate) (pa : List PromptArgument)
    (arguments : Option ArgMap) :
    (∀ items msgs, truthy t.system_prompt = false → t.messages = some (.vList items) →
        items.mapM (renderOneMsg (arguments.getD [])) = .ok msgs →
        get_prompt t pa arguments
          = { description := t.description, promptArgs := pa, messages := msgs })
    ∧ (∀ e, renderAll t (arguments.getD []) = .error e →
        get_prompt t pa arguments
          = { description := t.description, promptArgs := pa
              messages := [{ role := Value.vStr "system", text := "Error: " ++ e }] }) := by
  constructor
  · intro items msgs hsys hmsgs hmap
    have hall : renderAll t (arguments.getD []) = .ok msgs := by
      rw [renderAll]
      simp only [hsys, Bool.false_eq_true, if_false, hmsgs]
      simp only [iterValue]
      show (do
          let rendered ← List.mapM (renderOneMsg (arguments.getD [])) items
          pure (([] : List PromptMessage) ++ rendered) : Except String (List PromptMessage))
        = Except.ok msgs
      rw [hmap]
      rfl
    simp [get_prompt, hall]
  · intro e he
    simp [get_prompt, he]

theorem get_prompt_renders_or_reports_witness :
    get_prompt
        { name := Value.vStr "greet", description := Value.vStr "greeting",
          arguments := none, system_prompt := none,
          messages := some (.vList [.vDict [("role", .vStr "user"),
            ("content", .vStr "Hello {name}")]]) }
        [] (some [("name", "Ada")])
      = { description := Value.vStr "greeting", promptArgs := []
          messages := [{ role := Value.vStr "user", text := "Hello Ada" }] }
    ∧ get_prompt
        { name := Value.vStr "greet", description := Value.vStr "greeting",
          arguments := none, system_prompt := none,
          messages := some (.vList [.vDict [("role", .vStr "user"),
            ("content", .vStr "Hello {name}")]]) }
        [] none
      = { description := Value.vStr "greeting", promptArgs := []
          messages := [{ role := Value.vStr "system", text := "Error: " ++ "KeyError: name" }] } :=
  ⟨(get_prompt_renders_or_reports _ [] (some [("name", "Ada")])).1
      [.vDict [("role", .vStr "user"), ("content", .vStr "Hello {name}")]]
      [{ role := Value.vStr "user", text := "Hello Ada" }] rfl rfl rfl,
   (get_prompt_renders_or_reports _ [] none).2 "KeyError: name" rfl⟩

theorem walkDirs_append_of_no_exn {σ : Type} (w : World) (warn : String)
    (process : σ → FPath → List Entry → Step σ) (st : σ) (as bs : List FPath)
    (hpre : (walkDirs w warn process st as).2.2 = none) :
    walkDirs w warn process st (as ++ bs)
      = ((walkDirs w warn process (walkDirs w warn process st as).1 bs).1,
         (walkDirs w warn process st as).2.1
           ++ (walkDirs w warn process (walkDirs w warn process st as).1 bs).2.1,
         (walkDirs w warn process (walkDirs w warn process st as).1 bs).2.2) := by
  induction as generalizing st with
  | nil => simp [walkDirs]
  | cons d ds ih =>
    rw [List.cons_append]
    cases hd : alLookup w.dirs d with
    | none =>
      have hpre' : (walkDirs w warn process st ds).2.2 = none := by
        simp only [walkDirs, hd] at hpre
        exact hpre
      simp only [walkDirs, hd]
      rw [ih st hpre']
      simp
    | some entries =>
      rcases hp : process st d entries with ⟨st1, log1, exn1⟩
      cases exn1 with
      | some e =>
        exfalso
        simp only [walkDirs, hd, hp] at hpre
        exact Option.some_ne_none e hpre
      | none =>
        have hpre' : (walkDirs w warn process st1 ds).2.2 = none := by
          simp only [walkDirs, hd, hp] at hpre
          exact hpre
        simp only [walkDirs, hd, hp]
        rw [ih st1 hpre']
        simp [List.append_assoc]

theorem walkDirs_skip_missing {σ : Type} (w : World) (warn : String)
    (process : σ → FPath → List Entry → Step σ) (st : σ) (d : FPath) (ds₁ ds₂ : List FPath)
    (hd : alLookup w.dirs d = none)
    (hpre : (walkDirs w warn process st ds₁).2.2 = none) :
    walkDirs w warn process st (ds₁ ++ d :: ds₂)
      = ((walkDirs w warn process st (ds₁ ++ ds₂)).1,
         (walkDirs w warn process st ds₁).2.1
           ++ (warn ++ pathStr d)
             :: (walkDirs w warn process (walkDirs w warn process st ds₁).1 ds₂).2.1,
         (walkDirs w warn process st (ds₁ ++ ds₂)).2.2) := by
  rw [walkDirs_append_of_no_exn w warn process st ds₁ (d :: ds₂) hpre,
      walkDirs_append_of_no_exn w warn process st ds₁ ds₂ hpre]
  simp only [walkDirs, hd]

/-- C8: in each of the three pipelines, a configured root directory that
does not exist contributes zero registrations (the final state equals the
one obtained without that root), emits exactly one diagnostic warning naming
the directory at the point it is scanned, leaves the remaining roots
unaffected, and introduces no exception out of the initialization call. -/
theorem missing_root_warns_and_skips (w : World) (d : FPath) (ds₁ ds₂ : List FPath)
    (rcfg : ResourceConfig) (mcp : McpResources)
    (tcfg : ToolConfig) (ts : ToolState)
    (yl : YamlLib) (pcfg : PromptConfig) (ps : PromptState)
    (hd : alLookup w.dirs d = none)
    (hres : (init_resources rcfg w (some ds₁) true mcp).2.2 = none)
    (htool : (init_tools tcfg w (some ds₁) true ts).2.2 = none)
    (hprm : (init_prompts yl w pcfg (some ds₁) true ps).2.2 = none) :
    init_resources rcfg w (some (ds₁ ++ d :: ds₂)) true mcp
      = ((init_resources rcfg w (some (ds₁ ++ ds₂)) true mcp).1,
         (init_resources rcfg w (some ds₁) true mcp).2.1
           ++ ("Warning: Source directory does not exist: " ++ pathStr d)
             :: (init_resources rcfg w (some ds₂) true
                  (init_resources rcfg w (some ds₁) true mcp).1).2.1,
         (init_resources rcfg w (some (ds₁ ++ ds₂)) true mcp).2.2)
    ∧ init_tools tcfg w (some (ds₁ ++ d :: ds₂)) true ts
      = ((init_tools tcfg w (some (ds₁ ++ ds₂)) true ts).1,
         (init_tools tcfg w (some ds₁) true ts).2.1
           ++ ("Warning: Tool directory does not exist: " ++ pathStr d)
             :: (init_tools tcfg w (some ds₂) true
                  (init_tools tcfg w (some ds₁) true ts).1).2.1,
         (init_tools tcfg w (some (ds₁ ++ ds₂)) true ts).2.2)
    ∧ init_prompts yl w pcfg (some (ds₁ ++ d :: ds₂)) true ps
      = ((init_prompts yl w pcfg (some (ds₁ ++ ds₂)) true ps).1,
         (init_prompts yl w pcfg (some ds₁) true ps).2.1
           ++ ("Warning: Template directory does not exist: " ++ pathStr d)
             :: (init_prompts yl w pcfg (some ds₂) true
                  (init_prompts yl w pcfg (some ds₁) true ps).1).2.1,
         (init_prompts yl w pcfg (some (ds₁ ++ ds₂)) true ps).2.2) := by
  simp only [init_resources, init_tools, init_prompts, Option.getD_some, if_true,
    List.append_nil] at hres htool hprm ⊢
  exact ⟨walkDirs_skip_missing w _ _ mcp d ds₁ ds₂ hd hres,
         walkDirs_skip_missing w _ _ ts d ds₁ ds₂ hd htool,
         walkDirs_skip_missing w _ _ ps d ds₁ ds₂ hd hprm⟩

theorem missing_root_warns_and_skips_witness :
    init_resources {} ⟨[], fun _ => .ok "", fun _ => .ok 0, fun _ => none⟩
        (some ([] ++ ["gone"] :: [])) true []
      = ((init_resources {} ⟨[], fun _ => .ok "", fun _ => .ok 0, fun _ => none⟩
            (some ([] ++ [])) true []).1,
         (init_resources {} ⟨[], fun _ => .ok "", fun _ => .ok 0, fun _ => none⟩
            (some []) true []).2.1
           ++ ("Warning: Source directory does not exist: " ++ pathStr ["gone"])
             :: (init_resources {} ⟨[], fun _ => .ok "", fun _ => .ok 0, fun _ => none⟩
                  (some [])
                  true (init_resources {} ⟨[], fun _ => .ok "", fun _ => .ok 0, fun _ => none⟩
                    (some []) true []).1).2.1,
         (init_resources {} ⟨[], fun _ => .ok "", fun _ => .ok 0, fun _ => none⟩
            (some ([] ++ [])) true []).2.2)
    ∧ init_tools {} ⟨[], fun _ => .ok "", fun _ => .ok 0, fun _ => none⟩
        (some ([] ++ ["gone"] :: [])) true {}
      = ((init_tools {} ⟨[], fun _ => .ok "", fun _ => .ok 0, fun _ => none⟩
            (some ([] ++ [])) true {}).1,
         (init_tools {} ⟨[], fun _ => .ok "", fun _ => .ok 0, fun _ => none⟩
            (some []) true {}).2.1
           ++ ("Warning: Tool directory does not exist: " ++ pathStr ["gone"])
             :: (init_tools {} ⟨[], fun _ => .ok "", fun _ => .ok 0, fun _ => none⟩
                  (some [])
                  true (init_tools {} ⟨[], fun _ => .ok "", fun _ => .ok 0, fun _ => none⟩
                    (some []) true {}).1).2.1,
         (init_tools {} ⟨[], fun _ => .ok "", fun _ => .ok 0, fun _ => none⟩
            (some ([] ++ [])) true {}).2.2)
    ∧ init_prompts ⟨fun _ => none, fun _ => ""⟩
        ⟨[], fun _ => .ok "", fun _ => .ok 0, fun _ => none⟩ {}
        (some ([] ++ ["gone"] :: [])) true ⟨[], []⟩
      = ((init_prompts ⟨fun _ => none, fun _ => ""⟩
            ⟨[], fun _ => .ok "", fun _ => .ok 0, fun _ => none⟩ {}
            (some ([] ++ [])) true ⟨[], []⟩).1,
         (init_prompts ⟨fun _ => none, fun _ => ""⟩
            ⟨[], fun _ => .ok "", fun _ => .ok 0, fun _ => none⟩ {}
            (some []) true ⟨[], []⟩).2.1
           ++ ("Warning: Template directory does not exist: " ++ pathStr ["gone"])
             :: (init_prompts ⟨fun _ => none, fun _ => ""⟩
                  ⟨[], fun _ => .ok "", fun _ => .ok 0, fun _ => none⟩ {}
                  (some [])
                  true (init_prompts ⟨fun _ => none, fun _ => ""⟩
                    ⟨[], fun _ => .ok "", fun _ => .ok 0, fun _ => none⟩ {}
                    (some []) true ⟨[], []⟩).1).2.1,
         (init_prompts ⟨fun _ => none, fun _ => ""⟩
            ⟨[], fun _ => .ok "", fun _ => .ok 0, fun _ => none⟩ {}
            (some ([] ++ [])) true ⟨[], []⟩).2.2) :=
  missing_root_warns_and_skips ⟨[], fun _ => .ok "", fun _ => .ok 0, fun _ => none⟩
    ["gone"] [] [] {} [] {} {} ⟨fun _ => none, fun _ => ""⟩ {} ⟨[], []⟩
    rfl rfl rfl rfl

theorem isDigitChar_ofNat (r : Nat) (h : r < 10) :
    isDigitChar (Char.ofNat (48 + r)) = true := by
  have : ∀ x : Fin 10, isDigitChar (Char.ofNat (48 + x.val)) = true := by decide
  exact this ⟨r, h⟩

theorem digitVal_ofNat (r : Nat) (h : r < 10) : digitVal (Char.ofNat (48 + r)) = r := by
  have : ∀ x : Fin 10, digitVal (Char.ofNat (48 + x.val)) = x.val := by decide
  exact this ⟨r, h⟩

theorem hexVal_hexDigitChar (r : Nat) (h : r < 16) : hexVal (hexDigitChar r) = some r := by
  have : ∀ x : Fin 16, hexVal (hexDigitChar x.val) = some x.val := by decide
  exact this ⟨r, h⟩

theorem isDigitChar_bounds (c : Char) (h : isDigitChar c = true) :
    48 ≤ c.toNat ∧ c.toNat ≤ 57 := by
  simpa [isDigitChar, Bool.and_eq_true, decide_eq_true_eq] using h

theorem digit_not_special (c : Char) (h : isDigitChar c = true) :
    c ≠ 'n' ∧ c ≠ 't' ∧ c ≠ 'f' ∧ c ≠ '"' ∧ c ≠ '[' ∧ c ≠ lbrace ∧ c ≠ '-'
    ∧ isWsChar c = false ∧ c ≠ ']' ∧ c ≠ rbrace ∧ c ≠ ',' ∧ c ≠ ':' := by
  obtain ⟨h1, h2⟩ := isDigitChar_bounds c h
  have hne : ∀ d : Char, d.toNat < 48 ∨ 57 < d.toNat → c ≠ d := by
    intro d hd heq
    subst heq
    omega
  refine ⟨hne 'n' (by decide), hne 't' (by decide), hne 'f' (by decide),
    hne '"' (by decide), hne '[' (by decide), hne lbrace (by decide), hne '-' (by decide),
    ?_, hne ']' (by decide), hne rbrace (by decide), hne ',' (by decide), hne ':' (by decide)⟩
  have hsp : c ≠ ' ' := hne ' ' (by decide)
  have hnl : c ≠ '\n' := hne '\n' (by decide)
  have hta : c ≠ '\t' := hne '\t' (by decide)
  have hcr : c ≠ '\r' := hne '\r' (by decide)
  simp [isWsChar, hsp, hnl, hta, hcr]

theorem skipWs_cons (c : Char) (t : List Char) (h : isWsChar c = false) :
    skipWs (c :: t) = c :: t := by
  simp [skipWs, List.dropWhile_cons, h]

theorem skipWs_spaces (k : Nat) (t : List Char) : skipWs (spaces k ++ t) = skipWs t := by
  induction k with
  | zero => simp [spaces]
  | succ k ih =>
    have : spaces (k + 1) = ' ' :: spaces k := by
      simp [spaces, List.replicate]
    rw [this, List.cons_append]
    simpa [skipWs, List.dropWhile_cons] using ih

theorem skipWs_newline_spaces (k : Nat) (t : List Char) :
    skipWs ('\n' :: (spaces k ++ t)) = skipWs t := by
  have : skipWs ('\n' :: (spaces k ++ t)) = skipWs (spaces k ++ t) := by
    simp [skipWs, List.dropWhile_cons, isWsChar]
  rw [this, skipWs_spaces]

theorem skipWs_idem (cs : List Char) : skipWs (skipWs cs) = skipWs cs := by
  induction cs with
  | nil => rfl
  | cons c t ih =>
    by_cases h : isWsChar c = true
    · simp [skipWs, List.dropWhile_cons, h] at ih ⊢
      exact ih
    · simp only [Bool.not_eq_true] at h
      rw [skipWs_cons c t h, skipWs_cons c t h]

theorem natDigitsAux_shift (n : Nat) : ∀ acc, natDigitsAux n acc = natDigitsAux n [] ++ acc := by
  induction n using Nat.strong_induction_on with
  | _ n ih =>
    intro acc
    by_cases h : n < 10
    · conv_lhs => rw [natDigitsAux]
      conv_rhs => rw [natDigitsAux]
      simp [h]
    · have hd : n / 10 < n := Nat.div_lt_self (by omega) (by omega)
      conv_lhs => rw [natDigitsAux]
      conv_rhs => rw [natDigitsAux]
      simp only [h, if_false]
      rw [ih (n / 10) hd (Char.ofNat (48 + n % 10) :: acc),
          ih (n / 10) hd [Char.ofNat (48 + n % 10)]]
      simp

theorem natDigits_step (n : Nat) :
    natDigits n = if n < 10 then [Char.ofNat (48 + n)]
      else natDigits (n / 10) ++ [Char.ofNat (48 + n % 10)] := by
  rw [natDigits, natDigitsAux]
  by_cases h : n < 10
  · simp [h]
  · simp only [h, if_false]
    rw [natDigitsAux_shift (n / 10) [Char.ofNat (48 + n % 10)]]
    rfl

theorem natDigits_all_digits (n : Nat) : ∀ c ∈ natDigits n, isDigitChar c = true := by
  induction n using Nat.strong_induction_on with
  | _ n ih =>
    intro c hc
    rw [natDigits_step] at hc
    by_cases h : n < 10
    · simp only [h, if_true, List.mem_singleton] at hc
      subst hc
      exact isDigitChar_ofNat n h
    · simp only [h, if_false, List.mem_append, List.mem_singleton] at hc
      rcases hc with hc | hc
      · exact ih (n / 10) (Nat.div_lt_self (by omega) (by omega)) c hc
      · subst hc
        exact isDigitChar_ofNat (n % 10) (Nat.mod_lt n (by omega))

theorem natDigits_ne_nil (n : Nat) : natDigits n ≠ [] := by
  rw [natDigits_step]
  by_cases h : n < 10 <;> simp [h]

theorem readNat_digits (ds : List Char) : ∀ (acc : Nat) (rest : List Char),
    (∀ c ∈ ds, isDigitChar c = true) → headNotDigit rest = true →
    readNat (ds ++ rest) acc
      = (ds.foldl (fun a c => a * 10 + digitVal c) acc, rest) := by
  induction ds with
  | nil =>
    intro acc rest _ hrest
    cases rest with
    | nil => rfl
    | cons c t =>
      simp only [headNotDigit, Bool.not_eq_true'] at hrest
      simp [readNat, hrest]
  | cons d ds ih =>
    intro acc rest hds hrest
    have hd : isDigitChar d = true := hds d (by simp)
    rw [List.cons_append, readNat]
    simp only [hd, if_true]
    rw [ih (acc * 10 + digitVal d) rest (fun c hc => hds c (by simp [hc])) hrest]
    rfl

theorem foldl_natDigits (n : Nat) : ∀ acc,
    (natDigits n).foldl (fun a c => a * 10 + digitVal c) acc
      = acc * 10 ^ (natDigits n).length + n := by
  induction n using Nat.strong_induction_on with
  | _ n ih =>
    intro acc
    rw [natDigits_step]
    by_cases h : n < 10
    · simp [h, digitVal_ofNat n h]
    · simp only [h, if_false]
      rw [List.foldl_append, ih (n / 10) (Nat.div_lt_self (by omega) (by omega)) acc]
      simp only [List.foldl_cons, List.foldl_nil, List.length_append, List.length_singleton]
      rw [digitVal_ofNat (n % 10) (Nat.mod_lt n (by omega))]
      have hp : 10 ^ ((natDigits (n / 10)).length + 1)
          = 10 ^ (natDigits (n / 10)).length * 10 := by
        rw [pow_succ]
      rw [hp]
      have hdm : n / 10 * 10 + n % 10 = n := by omega
      ring_nf
      omega

theorem readNat_natDigits (n : Nat) (rest : List Char) (hrest : headNotDigit rest = true) :
    readNat (natDigits n ++ rest) 0 = (n, rest) := by
  rw [readNat_digits (natDigits n) 0 rest (natDigits_all_digits n) hrest,
      foldl_natDigits n 0]
  simp

theorem readStringBody_escBody (s : List Char) : ∀ rest,
    readStringBody (escBody s ++ '"' :: rest) = some (s, rest) := by
  induction s with
  | nil =>
    intro rest
    simp [escBody, readStringBody]
  | cons c cs ih =>
    intro rest
    rw [show escBody (c :: cs) = escChar c ++ escBody cs from rfl, List.append_assoc]
    by_cases h1 : c = '"'
    · subst h1
      rw [show escChar '"' = ['\\', '"'] from rfl]
      simp [readStringBody, readEscape, ih rest]
    · by_cases h2 : c = '\\'
      · subst h2
        rw [show escChar '\\' = ['\\', '\\'] from rfl]
        simp [readStringBody, readEscape, ih rest]
      · by_cases h3 : c = '\n'
        · subst h3
          rw [show escChar '\n' = ['\\', 'n'] from rfl]
          simp [readStringBody, readEscape, ih rest]
        · by_cases h4 : c = '\t'
          · subst h4
            rw [show escChar '\t' = ['\\', 't'] from rfl]
            simp [readStringBody, readEscape, ih rest]
          · by_cases h5 : c = '\r'
            · subst h5
              rw [show escChar '\r' = ['\\', 'r'] from rfl]
              simp [readStringBody, readEscape, ih rest]
            · by_cases h6 : c = Char.ofNat 8
              · subst h6
                rw [show escChar (Char.ofNat 8) = ['\\', 'b'] from rfl]
                simp [readStringBody, readEscape, ih rest]
              · by_cases h7 : c = Char.ofNat 12
                · subst h7
                  rw [show escChar (Char.ofNat 12) = ['\\', 'f'] from rfl]
                  simp [readStringBody, readEscape, ih rest]
                · by_cases h8 : c.toNat < 32
                  · rw [show escChar c
                        = ['\\', 'u', '0', '0', hexDigitChar (c.toNat / 16),
                           hexDigitChar (c.toNat % 16)] from by
                      simp [escChar, h1, h2, h3, h4, h5, h6, h7, h8]]
                    rw [show (['\\', 'u', '0', '0', hexDigitChar (c.toNat / 16),
                          hexDigitChar (c.toNat % 16)] : List Char) ++ (escBody cs ++ '"' :: rest)
                        = '\\' :: 'u' :: '0' :: '0' :: hexDigitChar (c.toNat / 16)
                            :: hexDigitChar (c.toNat % 16) :: (escBody cs ++ '"' :: rest) from rfl]
                    rw [show readStringBody ('\\' :: 'u' :: '0' :: '0'
                          :: hexDigitChar (c.toNat / 16) :: hexDigitChar (c.toNat % 16)
                          :: (escBody cs ++ '"' :: rest))
                        = readEscape ('u' :: '0' :: '0' :: hexDigitChar (c.toNat / 16)
                            :: hexDigitChar (c.toNat % 16) :: (escBody cs ++ '"' :: rest)) from by
                      simp [readStringBody]]
                    rw [show readEscape ('u' :: '0' :: '0' :: hexDigitChar (c.toNat / 16)
                          :: hexDigitChar (c.toNat % 16) :: (escBody cs ++ '"' :: rest))
                        = readHexEsc ('0' :: '0' :: hexDigitChar (c.toNat / 16)
                            :: hexDigitChar (c.toNat % 16) :: (escBody cs ++ '"' :: rest)) from by
                      simp [readEscape]]
                    rw [readHexEsc]
                    rw [show hexVal '0' = some 0 from rfl]
                    rw [hexVal_hexDigitChar (c.toNat / 16) (by omega),
                        hexVal_hexDigitChar (c.toNat % 16) (by omega)]
                    simp only [ih rest, Option.map_some]
                    have hcode : 0 * 4096 + 0 * 256 + c.toNat / 16 * 16 + c.toNat % 16
                        = c.toNat := by omega
                    rw [hcode, Char.ofNat_toNat]
                    rfl
                  · rw [show escChar c = [c] from by
                      simp [escChar, h1, h2, h3, h4, h5, h6, h7, h8]]
                    rw [show ([c] : List Char) ++ (escBody cs ++ '"' :: rest)
                        = c :: (escBody cs ++ '"' :: rest) from rfl]
                    rw [show readStringBody (c :: (escBody cs ++ '"' :: rest))
                        = (readStringBody (escBody cs ++ '"' :: rest)).map
                            (fun p => (c :: p.1, p.2)) from by
                      simp [readStringBody, h1, h2]]
                    simp [ih rest]

theorem psize_pos (v : Json) : 1 ≤ psize v := by
  cases v <;> simp [psize]

theorem parseVal_skipWs (g : Nat) (cs : List Char) :
    parseVal (g + 1) cs = parseVal (g + 1) (skipWs cs) := by
  conv_lhs => rw [parseVal]
  conv_rhs => rw [parseVal]
  rw [skipWs_idem]

theorem printJson_head (ind : Nat) (v : Json) :
    ∃ c t, printJson ind v = c :: t ∧ isWsChar c = false ∧ c ≠ ']' ∧ c ≠ rbrace := by
  cases v with
  | jnull =>
    exact ⟨'n', ['u', 'l', 'l'], by simp [printJson], by decide, by decide, by decide⟩
  | jbool b =>
    cases b
    · exact ⟨'f', ['a', 'l', 's', 'e'], by simp [printJson], by decide, by decide, by decide⟩
    · exact ⟨'t', ['r', 'u', 'e'], by simp [printJson], by decide, by decide, by decide⟩
  | jnum n =>
    by_cases hn : n < 0
    · exact ⟨'-', natDigits n.natAbs, by simp [printJson, printInt, hn], by decide,
        by decide, by decide⟩
    · cases hnd : natDigits n.toNat with
      | nil => exact absurd hnd (natDigits_ne_nil n.toNat)
      | cons c t =>
        have hc : isDigitChar c = true :=
          natDigits_all_digits n.toNat c (by rw [hnd]; simp)
        obtain ⟨_, _, _, _, _, _, _, hws, hrb1, hrb2, _, _⟩ := digit_not_special c hc
        exact ⟨c, t, by simp [printJson, printInt, hn, hnd], hws, hrb1, hrb2⟩
  | jstr s =>
    exact ⟨'"', escBody s ++ ['"'], by simp [printJson, printStr], by decide,
      by decide, by decide⟩
  | jarr xs =>
    cases xs with
    | nil => exact ⟨'[', [']'], by simp [printJson], by decide, by decide, by decide⟩
    | cons x xs =>
      exact ⟨'[', '\n' :: (spaces (ind + 2) ++ printJson (ind + 2) x
        ++ printItems (ind + 2) xs ++ '\n' :: (spaces ind ++ [']'])),
        by simp [printJson], by decide, by decide, by decide⟩
  | jobj kvs =>
    cases kvs with
    | nil => exact ⟨lbrace, [rbrace], by simp [printJson], by decide, by decide, by decide⟩
    | cons kv kvs =>
      obtain ⟨k, v⟩ := kv
      exact ⟨lbrace, '\n' :: (spaces (ind + 2) ++ printStr k ++ ':' :: ' '
        :: (printJson (ind + 2) v ++ printMembers (ind + 2) kvs
          ++ '\n' :: (spaces ind ++ [rbrace]))),
        by simp [printJson], by decide, by decide, by decide⟩

theorem expectChars_self (lit rest : List Char) :
    expectChars lit (lit ++ rest) = some rest := by
  have hpre : lit.isPrefixOf (lit ++ rest) = true := by
    rw [List.isPrefixOf_iff_prefix]
    exact ⟨rest, rfl⟩
  simp [expectChars, hpre, List.drop_left]

theorem parseVal_null (g : Nat) (rest : List Char) :
    parseVal (g + 1) ("null".data ++ rest) = some (Json.jnull, rest) := by
  conv_lhs => rw [parseVal]
  rw [show ("null".data ++ rest) = 'n' :: ("ull".data ++ rest) from rfl]
  rw [skipWs_cons _ _ (by decide)]
  simp
  exact expectChars_self "ull".data rest

theorem parseVal_bool (g : Nat) (b : Bool) (rest : List Char) :
    parseVal (g + 1) ((if b then "true".data else "false".data) ++ rest)
      = some (Json.jbool b, rest) := by
  cases b
  · conv_lhs => rw [parseVal]
    rw [show ((if false then "true".data else "false".data) ++ rest)
        = 'f' :: ("alse".data ++ rest) from rfl]
    rw [skipWs_cons _ _ (by decide)]
    simp
    exact expectChars_self "alse".data rest
  · conv_lhs => rw [parseVal]
    rw [show ((if true then "true".data else "false".data) ++ rest)
        = 't' :: ("rue".data ++ rest) from rfl]
    rw [skipWs_cons _ _ (by decide)]
    simp
    exact expectChars_self "rue".data rest

theorem parseVal_str (g : Nat) (s : List Char) (rest : List Char) :
    parseVal (g + 1) (printStr s ++ rest) = some (Json.jstr s, rest) := by
  conv_lhs => rw [parseVal]
  rw [show printStr s ++ rest = '"' :: (escBody s ++ '"' :: rest) from by
    simp [printStr]]
  rw [skipWs_cons _ _ (by decide)]
  simp [readStringBody_escBody]

theorem parseVal_num (g : Nat) (n : Int) (rest : List Char)
    (hrest : headNotDigit rest = true) :
    parseVal (g + 1) (printInt n ++ rest) = some (Json.jnum n, rest) := by
  by_cases hn : n < 0
  · conv_lhs => rw [parseVal]
    rw [show printInt n ++ rest = '-' :: (natDigits n.natAbs ++ rest) from by
      simp [printInt, hn]]
    rw [skipWs_cons _ _ (by decide)]
    cases hnd : natDigits n.natAbs with
    | nil => exact absurd hnd (natDigits_ne_nil n.natAbs)
    | cons c t =>
      have hc : isDigitChar c = true :=
        natDigits_all_digits n.natAbs c (by rw [hnd]; simp)
      simp only [List.cons_append]
      simp [hnd, hc, show ¬('-' = lbrace) from by decide]
      rw [show c :: (t ++ rest) = (c :: t) ++ rest from rfl, ← hnd,
        readNat_natDigits n.natAbs rest hrest]
      have hval : -((n.natAbs : Int)) = n := by omega
      rw [hval]
      exact ⟨rfl, rfl⟩
  · conv_lhs => rw [parseVal]
    rw [show printInt n ++ rest = natDigits n.toNat ++ rest from by
      simp [printInt, hn]]
    cases hnd : natDigits n.toNat with
    | nil => exact absurd hnd (natDigits_ne_nil n.toNat)
    | cons c t =>
      have hc : isDigitChar c = true :=
        natDigits_all_digits n.toNat c (by rw [hnd]; simp)
      obtain ⟨hn', ht', hf', hq', hb', hl', hm', hws, _, _, _, _⟩ := digit_not_special c hc
      simp only [List.cons_append]
      rw [skipWs_cons _ _ hws]
      simp [hn', ht', hf', hq', hb', hl', hm', hc]
      rw [show c :: (t ++ rest) = (c :: t) ++ rest from rfl, ← hnd,
        readNat_natDigits n.toNat rest hrest]
      have hval : ((n.toNat : Int)) = n := by omega
      rw [hval]
      exact ⟨rfl, rfl⟩

theorem skipWs_space (t : List Char) : skipWs (' ' :: t) = skipWs t := by
  simp [skipWs, List.dropWhile_cons, show isWsChar ' ' = true from by decide]

theorem psizeL_pos (xs : List Json) : 1 ≤ psizeL xs := by
  cases xs <;> simp [psizeL]

theorem psizeO_pos (kvs : List (List Char × Json)) : 1 ≤ psizeO kvs := by
  cases kvs <;> simp [psizeO]

theorem headNotDigit_printItems (ind : Nat) (xs : List Json) (t : List Char) :
    headNotDigit (printItems ind xs ++ '\n' :: t) = true := by
  cases xs with
  | nil =>
    rw [show printItems ind ([] : List Json) = [] from by simp [printItems], List.nil_append]
    simp only [headNotDigit]
    decide
  | cons x xs =>
    rw [show printItems ind (x :: xs)
        = ',' :: '\n' :: (spaces ind ++ printJson ind x ++ printItems ind xs) from by
      simp [printItems], List.cons_append]
    simp only [headNotDigit]
    decide

theorem headNotDigit_printMembers (ind : Nat) (kvs : List (List Char × Json)) (t : List Char) :
    headNotDigit (printMembers ind kvs ++ '\n' :: t) = true := by
  cases kvs with
  | nil =>
    rw [show printMembers ind ([] : List (List Char × Json)) = [] from by simp [printMembers],
      List.nil_append]
    simp only [headNotDigit]
    decide
  | cons kv kvs =>
    obtain ⟨k, v⟩ := kv
    rw [show printMembers ind ((k, v) :: kvs)
        = ',' :: '\n' :: (spaces ind ++ printStr k ++ ':' :: ' '
            :: (printJson ind v ++ printMembers ind kvs)) from by
      simp [printMembers], List.cons_append]
    simp only [headNotDigit]
    decide

theorem parseVal_ws_print (g ind : Nat) (v : Json) (rest : List Char) :
    parseVal (g + 1) (' ' :: (printJson ind v ++ rest))
      = parseVal (g + 1) (printJson ind v ++ rest) := by
  rw [parseVal_skipWs g, skipWs_space]
  obtain ⟨c0, t0, hpj, hws0, _, _⟩ := printJson_head ind v
  rw [hpj, List.cons_append, skipWs_cons _ _ hws0, ← List.cons_append, ← hpj]

theorem parseVal_nl_print (g ind k : Nat) (v : Json) (rest : List Char) :
    parseVal (g + 1) ('\n' :: (spaces k ++ (printJson ind v ++ rest)))
      = parseVal (g + 1) (printJson ind v ++ rest) := by
  rw [parseVal_skipWs g, skipWs_newline_spaces]
  obtain ⟨c0, t0, hpj, hws0, _, _⟩ := printJson_head ind v
  rw [hpj, List.cons_append, skipWs_cons _ _ hws0, ← List.cons_append, ← hpj]

theorem parsesMember_of_parsesVal (fuel : Nat) (hV : ParsesVal fuel) : ParsesMember fuel := by
  intro ind kv rest hsz hrest
  obtain ⟨k, v⟩ := kv
  have hsz2 : psize v ≤ fuel := hsz
  obtain ⟨g, rfl⟩ : ∃ g, fuel = g + 1 := by
    have := psize_pos v
    exact ⟨fuel - 1, by omega⟩
  conv_lhs => rw [parseMember]
  rw [show printStr k ++ ':' :: ' ' :: (printJson ind v ++ rest)
      = '"' :: (escBody k ++ '"' :: (':' :: ' ' :: (printJson ind v ++ rest))) from by
    simp [printStr]]
  rw [skipWs_cons _ _ (by decide)]
  simp [readStringBody_escBody, skipWs, List.dropWhile_cons, isWsChar]
  rw [parseVal_ws_print g ind v rest]
  rw [hV ind v rest hsz2 hrest]

theorem parseMember_skipWs (g : Nat) (cs : List Char) :
    parseMember g cs = parseMember g (skipWs cs) := by
  conv_lhs => rw [parseMember]
  conv_rhs => rw [parseMember]
  rw [skipWs_idem]

theorem parsesItems_step (fuel : Nat)
    (ihV : ∀ g, g < fuel → ParsesVal g)
    (ihI : ∀ g, g < fuel → ParsesItems g) : ParsesItems fuel := by
  intro ind k xs rest hsz
  obtain ⟨g, rfl⟩ : ∃ g, fuel = g + 1 := by
    have := psizeL_pos xs
    exact ⟨fuel - 1, by omega⟩
  cases xs with
  | nil =>
    rw [show printItems ind ([] : List Json) = [] from by simp [printItems], List.nil_append]
    conv_lhs => rw [parseItems]
    rw [skipWs_newline_spaces]
    rw [skipWs_cons _ _ (by decide)]
    simp
  | cons x xs =>
    have hx : psize x ≤ g := by
      have h1 := Nat.le_max_left (psize x) (psizeL xs)
      simp only [psizeL] at hsz
      omega
    have hxs : psizeL xs ≤ g := by
      have h1 := Nat.le_max_right (psize x) (psizeL xs)
      simp only [psizeL] at hsz
      omega
    have hgpos : 1 ≤ g := le_trans (psize_pos x) hx
    obtain ⟨g2, rfl⟩ : ∃ g2, g = g2 + 1 := ⟨g - 1, by omega⟩
    rw [show printItems ind (x :: xs)
        = ',' :: '\n' :: (spaces ind ++ printJson ind x ++ printItems ind xs) from by
      simp [printItems]]
    rw [show (',' :: '\n' :: (spaces ind ++ printJson ind x ++ printItems ind xs))
          ++ '\n' :: (spaces k ++ ']' :: rest)
        = ',' :: '\n' :: (spaces ind ++ (printJson ind x
            ++ (printItems ind xs ++ '\n' :: (spaces k ++ ']' :: rest)))) from by
      simp [List.append_assoc]]
    conv_lhs => rw [parseItems]
    rw [skipWs_cons _ _ (by decide)]
    simp
    rw [parseVal_nl_print g2 ind ind x (printItems ind xs ++ '\n' :: (spaces k ++ ']' :: rest))]
    rw [ihV (g2 + 1) (by omega) ind x
      (printItems ind xs ++ '\n' :: (spaces k ++ ']' :: rest)) hx
      (headNotDigit_printItems ind xs (spaces k ++ ']' :: rest))]
    simp [ihI (g2 + 1) (by omega) ind k xs rest hxs]

theorem parsesMembers_step (fuel : Nat)
    (ihV : ∀ g, g < fuel → ParsesVal g)
    (ihM : ∀ g, g < fuel → ParsesMembers g) : ParsesMembers fuel := by
  intro ind k kvs rest hsz
  obtain ⟨g, rfl⟩ : ∃ g, fuel = g + 1 := by
    have := psizeO_pos kvs
    exact ⟨fuel - 1, by omega⟩
  cases kvs with
  | nil =>
    rw [show printMembers ind ([] : List (List Char × Json)) = [] from by simp [printMembers],
      List.nil_append]
    conv_lhs => rw [parseMembers]
    rw [skipWs_newline_spaces]
    rw [skipWs_cons _ _ (by decide)]
    simp [show ¬(rbrace = ',') from by decide]
  | cons kv kvs =>
    obtain ⟨k2, v⟩ := kv
    have hv : psize v ≤ g := by
      have h1 := Nat.le_max_left (psize v) (psizeO kvs)
      simp only [psizeO] at hsz
      omega
    have hkvs : psizeO kvs ≤ g := by
      have h1 := Nat.le_max_right (psize v) (psizeO kvs)
      simp only [psizeO] at hsz
      omega
    rw [show printMembers ind ((k2, v) :: kvs)
        = ',' :: '\n' :: (spaces ind ++ printStr k2 ++ ':' :: ' '
            :: (printJson ind v ++ printMembers ind kvs)) from by
      simp [printMembers]]
    rw [show (',' :: '\n' :: (spaces ind ++ printStr k2 ++ ':' :: ' '
            :: (printJson ind v ++ printMembers ind kvs)))
          ++ '\n' :: (spaces k ++ rbrace :: rest)
        = ',' :: '\n' :: (spaces ind ++ (printStr k2 ++ ':' :: ' '
            :: (printJson ind v
              ++ (printMembers ind kvs ++ '\n' :: (spaces k ++ rbrace :: rest))))) from by
      simp [List.append_assoc]]
    conv_lhs => rw [parseMembers]
    rw [skipWs_cons _ _ (by decide)]
    simp
    rw [parseMember_skipWs g, skipWs_newline_spaces]
    rw [show skipWs (printStr k2 ++ ':' :: ' ' :: (printJson ind v
          ++ (printMembers ind kvs ++ '\n' :: (spaces k ++ rbrace :: rest))))
        = printStr k2 ++ ':' :: ' ' :: (printJson ind v
            ++ (printMembers ind kvs ++ '\n' :: (spaces k ++ rbrace :: rest))) from by
      rw [show printStr k2 ++ ':' :: ' ' :: (printJson ind v
            ++ (printMembers ind kvs ++ '\n' :: (spaces k ++ rbrace :: rest)))
          = '"' :: ((escBody k2 ++ ['"']) ++ ':' :: ' ' :: (printJson ind v
              ++ (printMembers ind kvs ++ '\n' :: (spaces k ++ rbrace :: rest)))) from by
        simp [printStr]]
      exact skipWs_cons _ _ (by decide)]
    rw [parsesMember_of_parsesVal g (ihV g (by omega)) ind (k2, v)
      (printMembers ind kvs ++ '\n' :: (spaces k ++ rbrace :: rest)) hv
      (headNotDigit_printMembers ind kvs (spaces k ++ rbrace :: rest))]
    simp [ihM g (by omega) ind k kvs rest hkvs]

theorem parsesVal_step (fuel : Nat)
    (ihV : ∀ g, g < fuel → ParsesVal g)
    (ihI : ∀ g, g < fuel → ParsesItems g)
    (ihM : ∀ g, g < fuel → ParsesMembers g) : ParsesVal fuel := by
  intro ind v rest hsz hrest
  obtain ⟨g, rfl⟩ : ∃ g, fuel = g + 1 := by
    have := psize_pos v
    exact ⟨fuel - 1, by omega⟩
  cases v with
  | jnull =>
    rw [show printJson ind Json.jnull = "null".data from by simp [printJson]]
    exact parseVal_null g rest
  | jbool b =>
    rw [show printJson ind (Json.jbool b)
        = (if b then "true".data else "false".data) from by simp [printJson]]
    exact parseVal_bool g b rest
  | jnum n =>
    rw [show printJson ind (Json.jnum n) = printInt n from by simp [printJson]]
    exact parseVal_num g n rest hrest
  | jstr s =>
    rw [show printJson ind (Json.jstr s) = printStr s from by simp [printJson]]
    exact parseVal_str g s rest
  | jarr xs =>
    cases xs with
    | nil =>
      rw [show printJson ind (Json.jarr []) ++ rest = '[' :: (']' :: rest) from by
        simp [printJson]]
      conv_lhs => rw [parseVal]
      rw [skipWs_cons _ _ (by decide)]
      simp only [skipWs_cons _ _ (show isWsChar ']' = false from by decide)]
      simp
    | cons x xs =>
      have hx : psize x ≤ g := by
        have h1 := Nat.le_max_left (psize x) (psizeL xs)
        simp only [psize, psizeL] at hsz
        omega
      have hxs : psizeL xs ≤ g := by
        have h1 := Nat.le_max_right (psize x) (psizeL xs)
        simp only [psize, psizeL] at hsz
        omega
      have hgpos : 1 ≤ g := le_trans (psize_pos x) hx
      obtain ⟨g2, rfl⟩ : ∃ g2, g = g2 + 1 := ⟨g - 1, by omega⟩
      rw [show printJson ind (Json.jarr (x :: xs)) ++ rest
          = '[' :: '\n' :: (spaces (ind + 2) ++ (printJson (ind + 2) x
              ++ (printItems (ind + 2) xs ++ '\n' :: (spaces ind ++ (']' :: rest))))) from by
        simp [printJson, List.append_assoc]]
      conv_lhs => rw [parseVal]
      rw [skipWs_cons _ _ (by decide)]
      simp
      rw [skipWs_newline_spaces]
      obtain ⟨c0, t0, hpj, hws0, hnb0, _⟩ := printJson_head (ind + 2) x
      rw [hpj, List.cons_append, skipWs_cons _ _ hws0]
      simp [hnb0]
      rw [← List.cons_append, ← hpj]
      rw [ihV (g2 + 1) (by omega) (ind + 2) x
        (printItems (ind + 2) xs ++ '\n' :: (spaces ind ++ (']' :: rest))) hx
        (headNotDigit_printItems (ind + 2) xs (spaces ind ++ (']' :: rest)))]
      simp [ihI (g2 + 1) (by omega) (ind + 2) ind xs rest hxs]
  | jobj kvs =>
    cases kvs with
    | nil =>
      rw [show printJson ind (Json.jobj []) ++ rest = lbrace :: (rbrace :: rest) from by
        simp [printJson]]
      conv_lhs => rw [parseVal]
      rw [skipWs_cons _ _ (show isWsChar lbrace = false from by decide)]
      simp [show ¬(lbrace = 'n') from by decide, show ¬(lbrace = 't') from by decide,
        show ¬(lbrace = 'f') from by decide, show ¬(lbrace = '"') from by decide,
        show ¬(lbrace = '[') from by decide,
        skipWs_cons _ _ (show isWsChar rbrace = false from by decide)]
    | cons kv kvs =>
      obtain ⟨k2, v⟩ := kv
      have hv : psize v ≤ g := by
        have h1 := Nat.le_max_left (psize v) (psizeO kvs)
        simp only [psize, psizeO] at hsz
        omega
      have hkvs : psizeO kvs ≤ g := by
        have h1 := Nat.le_max_right (psize v) (psizeO kvs)
        simp only [psize, psizeO] at hsz
        omega
      rw [show printJson ind (Json.jobj ((k2, v) :: kvs)) ++ rest
          = lbrace :: '\n' :: (spaces (ind + 2) ++ (printStr k2 ++ ':' :: ' '
              :: (printJson (ind + 2) v ++ (printMembers (ind + 2) kvs
                ++ '\n' :: (spaces ind ++ (rbrace :: rest)))))) from by
        simp [printJson, List.append_assoc]]
      conv_lhs => rw [parseVal]
      rw [skipWs_cons _ _ (show isWsChar lbrace = false from by decide)]
      simp [show ¬(lbrace = 'n') from by decide, show ¬(lbrace = 't') from by decide,
        show ¬(lbrace = 'f') from by decide, show ¬(lbrace = '"') from by decide,
        show ¬(lbrace = '[') from by decide]
      rw [skipWs_newline_spaces]
      rw [show printStr k2 ++ ':' :: ' ' :: (printJson (ind + 2) v
            ++ (printMembers (ind + 2) kvs ++ '\n' :: (spaces ind ++ (rbrace :: rest))))
          = '"' :: (escBody k2 ++ '"' :: (':' :: ' ' :: (printJson (ind + 2) v
              ++ (printMembers (ind + 2) kvs
                ++ '\n' :: (spaces ind ++ (rbrace :: rest)))))) from by
        simp [printStr]]
      rw [skipWs_cons _ _ (by decide)]
      simp [show ¬(('"' : Char) = rbrace) from by decide]
      rw [show ('"' :: (escBody k2 ++ '"' :: (':' :: ' ' :: (printJson (ind + 2) v
            ++ (printMembers (ind + 2) kvs ++ '\n' :: (spaces ind ++ (rbrace :: rest)))))))
          = printStr k2 ++ ':' :: ' ' :: (printJson (ind + 2) v
              ++ (printMembers (ind + 2) kvs
                ++ '\n' :: (spaces ind ++ (rbrace :: rest)))) from by
        simp [printStr]]
      rw [parsesMember_of_parsesVal g (ihV g (by omega)) (ind + 2) (k2, v)
        (printMembers (ind + 2) kvs ++ '\n' :: (spaces ind ++ (rbrace :: rest))) hv
        (headNotDigit_printMembers (ind + 2) kvs (spaces ind ++ (rbrace :: rest)))]
      simp [ihM g (by omega) (ind + 2) ind kvs rest hkvs]

theorem parses_all (fuel : Nat) :
    ParsesVal fuel ∧ ParsesItems fuel ∧ ParsesMembers fuel := by
  induction fuel using Nat.strong_induction_on with
  | _ fuel ih =>
    have hV : ParsesVal fuel :=
      parsesVal_step fuel (fun g hg => (ih g hg).1) (fun g hg => (ih g hg).2.1)
        (fun g hg => (ih g hg).2.2)
    exact ⟨hV,
      parsesItems_step fuel (fun g hg => (ih g hg).1) (fun g hg => (ih g hg).2.1),
      parsesMembers_step fuel (fun g hg => (ih g hg).1) (fun g hg => (ih g hg).2.2)⟩

mutual
theorem psize_le_print (ind : Nat) (v : Json) : psize v ≤ (printJson ind v).length + 1 := by
  cases v with
  | jnull => simp [psize, printJson]
  | jbool b => cases b <;> simp [psize, printJson]
  | jnum n => simp [psize]
  | jstr s => simp [psize]
  | jarr xs =>
    cases xs with
    | nil => simp [psize, psizeL, printJson]
    | cons x xs =>
      have h1 := psize_le_print (ind + 2) x
      have h2 := psizeL_le_printItems (ind + 2) xs
      simp only [psize, psizeL, printJson]
      simp only [List.length_cons, List.length_append, spaces, List.length_replicate]
      omega

  | jobj kvs =>
    cases kvs with
    | nil => simp [psize, psizeO, printJson]
    | cons kv kvs =>
      obtain ⟨k, v⟩ := kv
      have h1 := psize_le_print (ind + 2) v
      have h2 := psizeO_le_printMembers (ind + 2) kvs
      simp only [psize, psizeO, printJson]
      simp only [List.length_cons, List.length_append, spaces, List.length_replicate]
      omega

theorem psizeL_le_printItems (ind : Nat) (xs : List Json) :
    psizeL xs ≤ (printItems ind xs).length + 1 := by
  cases xs with
  | nil => simp [psizeL, printItems]
  | cons x xs =>
    have h1 := psize_le_print ind x
    have h2 := psizeL_le_printItems ind xs
    simp only [psizeL, printItems]
    simp only [List.length_cons, List.length_append, spaces, List.length_replicate]
    omega

theorem psizeO_le_printMembers (ind : Nat) (kvs : List (List Char × Json)) :
    psizeO kvs ≤ (printMembers ind kvs).length + 1 := by
  cases kvs with
  | nil => simp [psizeO, printMembers]
  | cons kv kvs =>
    obtain ⟨k, v⟩ := kv
    have h1 := psize_le_print ind v
    have h2 := psizeO_le_printMembers ind kvs
    simp only [psizeO, printMembers]
    simp only [List.length_cons, List.length_append, spaces, List.length_replicate]
    omega
end

theorem json_loads_dumps (v : Json) : json_loads (json_dumps v) = some v := by
  have hb : psize v ≤ (printJson 0 v).length + 1 := psize_le_print 0 v
  have hV : ParsesVal ((printJson 0 v).length + 1) := (parses_all _).1
  have hp := hV 0 v [] hb (by rfl)
  rw [List.append_nil] at hp
  rw [json_loads]
  rw [show (json_dumps v).data = printJson 0 v from rfl]
  rw [hp]
  rfl

/-- C7: a resource with a JSON extension whose content parses as JSON is
served as the pretty-printed, stably-indented re-serialization of the parsed
value, re-parsing the served body yields a value equal to the parsed one
(round-trip of values, not of whitespace), and a YAML-family extension is
canonicalized the same way through the YAML serializer, whichever serializer
that is. -/
theorem json_resource_canonical_roundtrip (cfg : ResourceConfig) (yl : YamlLib) (w : World)
    (st : RMState) (pr : Provider) (raw : String) (v : Json) (t : Nat)
    (fp2 : FPath) (raw2 : String) (v2 : Value)
    (hsuffix : lowerStr (pathSuffix pr.file_path) = ".json")
    (hread : w.readFile pr.file_path = .ok raw)
    (hparse : json_loads raw = some v)
    (hmtime : w.mtime pr.file_path = .ok t)
    (hs2 : lowerStr (pathSuffix fp2) = ".yaml" ∨ lowerStr (pathSuffix fp2) = ".yml")
    (hy2 : yl.load raw2 = some v2) :
    (get_resource cfg yl w st pr).2.text = json_dumps v
    ∧ json_loads (json_dumps v) = some v
    ∧ parse_structured_content yl fp2 raw2 = yl.dump v2 := by
  refine ⟨?_, json_loads_dumps v, ?_⟩
  · have hpc : parse_structured_content yl pr.file_path raw = json_dumps v := by
      simp [parse_structured_content, hsuffix, hparse]
    simp [get_resource, hread, hmtime, hpc]
  · have hne : lowerStr (pathSuffix fp2) ≠ ".json" := by
      rcases hs2 with h | h <;> simp [h]
    rcases hs2 with h | h <;> simp [parse_structured_content, hne, h, hy2]

theorem json_resource_canonical_roundtrip_witness :
    (get_resource {} ⟨fun _ => some .vNull, fun _ => "dumped"⟩
        ⟨[], fun _ => .ok (json_dumps (Json.jobj
            [("a".data, Json.jnum 1), ("b".data, Json.jnum 2)])),
         fun _ => .ok 5, fun _ => none⟩ {} ⟨["data.json"], "s", "u"⟩).2.text
      = json_dumps (Json.jobj [("a".data, Json.jnum 1), ("b".data, Json.jnum 2)])
    ∧ json_loads (json_dumps (Json.jobj [("a".data, Json.jnum 1), ("b".data, Json.jnum 2)]))
      = some (Json.jobj [("a".data, Json.jnum 1), ("b".data, Json.jnum 2)])
    ∧ parse_structured_content ⟨fun _ => some .vNull, fun _ => "dumped"⟩ ["y.yaml"] "k: v"
      = (⟨fun _ => some .vNull, fun _ => "dumped"⟩ : YamlLib).dump .vNull :=
  json_resource_canonical_roundtrip {} ⟨fun _ => some .vNull, fun _ => "dumped"⟩
    ⟨[], fun _ => .ok (json_dumps (Json.jobj
        [("a".data, Json.jnum 1), ("b".data, Json.jnum 2)])),
     fun _ => .ok 5, fun _ => none⟩ {} ⟨["data.json"], "s", "u"⟩
    (json_dumps (Json.jobj [("a".data, Json.jnum 1), ("b".data, Json.jnum 2)]))
    (Json.jobj [("a".data, Json.jnum 1), ("b".data, Json.jnum 2)]) 5
    ["y.yaml"] "k: v" .vNull
    (by decide) rfl (json_loads_dumps _) rfl (Or.inl (by decide)) rfl

end Mcp
